import Mathlib

/-!
Verification of the runescrape collector core (src/collector.py, src/db.py).

The Python code is shallowly embedded: pure string/number manipulation is
translated to Lean functions; HTTP fetches are replaced by explicit oracles
passed as arguments; the SQLAlchemy transaction scope is modelled by a staged
write sequence with a fault oracle that commits only when every write
succeeds; Python exceptions are modelled with Except.  Python machine-level
details kept: str.split(",") on "" gives [""], int(...) accepts surrounding
whitespace and an optional sign, dict/set membership is list membership,
"-1" normalization happens in parse_int.
-/

deriving instance DecidableEq for Except

namespace Runescrape

/-- Split a character list at every occurrence of sep; like Python
str.split(sep) this yields one (possibly empty) part more than the number of
separators, so "" gives [""]. -/
def splitCharAux (sep : Char) : List Char → List Char → List (List Char)
  | [], cur => [cur.reverse]
  | c :: rest, cur =>
    if c = sep then cur.reverse :: splitCharAux sep rest []
    else splitCharAux sep rest (c :: cur)

/-- Python str.split(","). -/
def pySplitComma (s : String) : List String :=
  (splitCharAux ',' s.toList []).map List.asString

/-- Strip leading and trailing whitespace, Python str.strip() / int()'s
surrounding-whitespace tolerance. -/
def trimChars (cs : List Char) : List Char :=
  ((cs.dropWhile Char.isWhitespace).reverse.dropWhile Char.isWhitespace).reverse

/-- Numeric value of a list of decimal digit characters (most significant first). -/
def digitsVal (cs : List Char) : Nat := cs.foldl (fun a c => 10 * a + (c.toNat - 48)) 0

/-- Python int(string): strip surrounding whitespace, optional sign, then a
non-empty run of decimal digits; anything else raises, modelled as none. -/
def pyInt (s : String) : Option Int :=
  match trimChars s.toList with
  | [] => none
  | c :: rest =>
    if c = '-' then
      if rest ≠ [] ∧ rest.all Char.isDigit then some (-(digitsVal rest : Int)) else none
    else if c = '+' then
      if rest ≠ [] ∧ rest.all Char.isDigit then some ((digitsVal rest : Int)) else none
    else
      if (c :: rest).all Char.isDigit then some ((digitsVal (c :: rest) : Int)) else none

/-- src/collector.py parse_int: int(value), with -1 normalized to None and
any parse failure returning None. -/
def parse_int (value : String) : Option Int :=
  match pyInt value with
  | none => none
  | some v => if v = -1 then none else some v

/-- src/collector.py SKILL_NAMES. -/
def SKILL_NAMES : List String :=
  ["Overall", "Attack", "Defence", "Strength", "Hitpoints", "Ranged",
   "Prayer", "Magic", "Cooking", "Woodcutting", "Fletching", "Fishing",
   "Firemaking", "Crafting", "Smithing", "Mining", "Herblore", "Agility",
   "Thieving", "Slayer", "Farming", "Runecraft", "Hunter", "Construction", "Sailing"]

/-- src/collector.py MINIGAME_NAMES. -/
def MINIGAME_NAMES : List String :=
  ["League Points", "Deadman Points",
   "Bounty Hunter - Hunter", "Bounty Hunter - Rogue",
   "Bounty Hunter (Legacy) - Hunter", "Bounty Hunter (Legacy) - Rogue",
   "Clue Scrolls (all)", "Clue Scrolls (beginner)", "Clue Scrolls (easy)",
   "Clue Scrolls (medium)", "Clue Scrolls (hard)", "Clue Scrolls (elite)",
   "Clue Scrolls (master)", "LMS - Rank", "PvP Arena - Rank",
   "Soul Wars Zeal", "Rifts closed", "Colosseum Glory",
   "Collections Logged", "Theatre of Blood",
   "Theatre of Blood: Hard Mode", "Chambers of Xeric",
   "Chambers of Xeric: Challenge Mode", "Tombs of Amascut",
   "Tombs of Amascut: Expert Mode", "TzKal-Zuk", "TzTok-Jad",
   "Corporeal Beast", "Nightmare", "Phosani's Nightmare",
   "Obor", "Bryophyta", "Mimic", "Hespori", "Skotizo",
   "Scurrius", "Vorkath", "Zalcano", "Wintertodt",
   "Tempoross", "Guardians of the Rift",
   "Abyssal Sire", "Cerberus", "Chaos Elemental", "Chaos Fanatic",
   "Commander Zilyana", "Crazy Archaeologist", "Dagannoth Prime",
   "Dagannoth Rex", "Dagannoth Supreme", "Deranged Archaeologist",
   "Duke Sucellus", "General Graardor", "Giant Mole",
   "Grotesque Guardians", "Kalphite Queen", "King Black Dragon",
   "Kraken", "Kree'Arra", "K'ril Tsutsaroth", "Lunar Chests",
   "Phantom Muspah", "Sarachnis", "Scorpia", "Sol Heredit",
   "Spindel", "Vardorvis", "Vetion", "Venenatis", "Zulrah"]

/-- One parsed skill row of store_snapshot (snapshot_id attached later). -/
structure SkillRow where
  skill : String
  rank : Option Int
  level : Option Int
  xp : Option Int
deriving DecidableEq

/-- One parsed minigame row of store_snapshot (snapshot_id attached later). -/
structure MiniRow where
  activity : String
  rank : Option Int
  score : Option Int
deriving DecidableEq

/-- store_snapshot skill branch for line index i < len(SKILL_NAMES):
parts[0] and parts[1] are indexed without a bounds guard (an out-of-range
index raises, modelled as Except.error); parts[2] is guarded by
len(parts) > 2. -/
def parseSkillLine (i : Nat) (line : String) : Except Unit SkillRow :=
  match (pySplitComma line).get? 0, (pySplitComma line).get? 1 with
  | some p0, some p1 =>
    .ok { skill := SKILL_NAMES.getD i "",
          rank := parse_int p0,
          level := parse_int p1,
          xp := if (pySplitComma line).length > 2 then parse_int ((pySplitComma line).getD 2 "")
                else none }
  | _, _ => .error ()

/-- store_snapshot minigame branch for line index i ≥ len(SKILL_NAMES), with
mi = i - len(SKILL_NAMES): the catalog overflows into "Activity N" labels;
parts[0] always exists (split never yields an empty list) and parts[1] is
guarded by len(parts) > 1, so this branch never raises. -/
def parseMiniLine (mi : Nat) (line : String) : MiniRow :=
  { activity := if mi < MINIGAME_NAMES.length then MINIGAME_NAMES.getD mi ""
                else "Activity " ++ toString (mi + 1),
    rank := parse_int ((pySplitComma line).getD 0 ""),
    score := if (pySplitComma line).length > 1 then parse_int ((pySplitComma line).getD 1 "")
             else none }

/-- The parsing loop of store_snapshot (lines 278-296), starting at line
index i.  A raise inside the loop aborts the whole parse. -/
def parseLinesAux (i : Nat) : List String → Except Unit (List SkillRow × List MiniRow)
  | [] => .ok ([], [])
  | line :: rest =>
    if i < SKILL_NAMES.length then
      match parseSkillLine i line, parseLinesAux (i + 1) rest with
      | .error e, _ => .error e
      | .ok _, .error e => .error e
      | .ok r, .ok (ss, ms) => .ok (r :: ss, ms)
    else
      match parseLinesAux (i + 1) rest with
      | .error e => .error e
      | .ok (ss, ms) => .ok (ss, parseMiniLine (i - SKILL_NAMES.length) line :: ms)

/-- The full parse stage of store_snapshot: enumerate(lines) from index 0. -/
def parseLines (lines : List String) : Except Unit (List SkillRow × List MiniRow) :=
  parseLinesAux 0 lines

/-- Python str.lower(), character-wise. -/
def lowerStr (s : String) : String := (s.toList.map Char.toLower).asString

/-- One row of the snapshots table (src/db.py): id, player, mode, timestamp, date. -/
structure SnapRow where
  id : Nat
  player : String
  mode : String
  timestamp : String
  date : String
deriving DecidableEq

/-- The visible database state: the three tables of src/db.py.  Child rows
carry their snapshot_id. -/
structure DB where
  snapshots : List SnapRow
  skills : List (Nat × SkillRow)
  minigames : List (Nat × MiniRow)
deriving DecidableEq

/-- The three insert statements issued inside the single engine.begin() scope
of store_snapshot, in program order. -/
inductive WriteStep
  | header
  | skillRows
  | minigameRows
deriving DecidableEq

/-- The body of the `with engine.begin()` block of store_snapshot, run
against a staged copy of the database.  The fault oracle says which insert
(if any) raises; the first raising insert aborts the block.  snap_id models
the autoincrement primary key as one past the current row count. -/
def runTxn (fault : WriteStep → Bool) (db : DB) (player mode ts date : String)
    (srows : List SkillRow) (mrows : List MiniRow) : Except Unit (DB × Nat) :=
  if fault .header then .error () else
  let snapId := db.snapshots.length + 1
  let db1 : DB := { db with snapshots := db.snapshots ++ [⟨snapId, player, mode, ts, date⟩] }
  if fault .skillRows then .error () else
  let db2 : DB := { db1 with skills := db1.skills ++ srows.map (fun r => (snapId, r)) }
  if fault .minigameRows then .error () else
  .ok ({ db2 with minigames := db2.minigames ++ mrows.map (fun r => (snapId, r)) }, snapId)

/-- src/collector.py store_snapshot: parse the raw lines, then write the
header row, skill rows and minigame rows inside one transaction.  The first
component is the visible database afterwards: on any failure the transaction
scope rolls back, so the input database is returned unchanged; on success the
committed state is returned together with the new snapshot id.  The
timestamp/date strings stand for datetime.now(timezone.utc). -/
def store_snapshot (fault : WriteStep → Bool) (db : DB) (player mode ts date : String)
    (lines : List String) : DB × Except Unit Nat :=
  match parseLines lines with
  | .error _ => (db, .error ())
  | .ok (srows, mrows) =>
    match runTxn fault db (lowerStr player) mode ts date srows mrows with
    | .error _ => (db, .error ())
    | .ok (db2, snapId) => (db2, .ok snapId)

/-- An HTTP response, the input of fetch_raw once requests.get is replaced
by an oracle. -/
structure HttpResponse where
  status : Nat
  body : String

/-- The two failure conditions fetch_raw can raise: the ValueError for a 404
(player not found) and the requests.HTTPError from raise_for_status for any
other 4xx/5xx status. -/
inductive FetchErr
  | notFound (player mode : String)
  | httpError (status : Nat)
deriving DecidableEq

/-- Python str.splitlines() after strip(): modelled as splitting the body on
a newline character, with the empty body giving no lines. -/
def pySplitlines (s : String) : List String :=
  if s = "" then [] else (splitCharAux '\n' s.toList []).map List.asString

/-- src/collector.py fetch_raw with the HTTP call replaced by the response:
status 404 raises ValueError (NotFound); raise_for_status raises for any
other status in [400, 600); otherwise the stripped body is split into lines. -/
def fetch_raw (resp : HttpResponse) (player mode : String) : Except FetchErr (List String) :=
  if resp.status = 404 then .error (.notFound player mode)
  else if 400 ≤ resp.status ∧ resp.status < 600 then .error (.httpError resp.status)
  else .ok (pySplitlines ((trimChars resp.body.toList).asString))

/-- One iteration of the collect loop for entry (player, mode): the try
block fetches and stores; any exception from either step is caught.  The
result is the database afterwards and the per-entry outcome. -/
def collectEntry (responses : String → String → HttpResponse)
    (fault : String → String → WriteStep → Bool) (ts date : String)
    (db : DB) (player mode : String) : DB × Except Unit Nat :=
  match fetch_raw (responses player mode) player mode with
  | .error _ => (db, .error ())
  | .ok lines => store_snapshot (fault player mode) db player mode ts date lines

/-- src/collector.py collect: process the entries in order, each inside its
own try/except, so no entry's failure stops the loop.  Returns the final
database and the per-entry outcomes in order. -/
def collect (responses : String → String → HttpResponse)
    (fault : String → String → WriteStep → Bool) (ts date : String) :
    DB → List (String × String) → DB × List (Except Unit Nat)
  | db, [] => (db, [])
  | db, (player, mode) :: rest =>
    let r := collectEntry responses fault ts date db player mode
    let r2 := collect responses fault ts date r.1 rest
    (r2.1, r.2 :: r2.2)

/-- src/collector.py get_overall_rank, with fetch_raw's outcome supplied as
an oracle (any exception gives error): parse_int of the first field of the
first line, none when the fetch failed or there are no lines. -/
def get_overall_rank (raw : Except Unit (List String)) : Option Int :=
  match raw with
  | .error _ => none
  | .ok lines =>
    match lines with
    | [] => none
    | l0 :: _ =>
      match pySplitComma l0 with
      | [] => none
      | p0 :: _ => parse_int p0

/-- The integers lo, lo+1, ..., hi-1 (Python range(lo, hi) over ints). -/
def intRange (lo hi : Int) : List Int :=
  (List.range (hi - lo).toNat).map (fun (i : Nat) => lo + (i : Int))

/-- The rank_to_player dict, as its association list; insertion overwrites
any earlier binding of the same rank. -/
abbrev RankMap := List (Int × String)

/-- Dict assignment rank_to_player[rank] = name. -/
def rmInsert (m : RankMap) (k : Int) (v : String) : RankMap :=
  (List.filter (fun e => e.1 != k) m) ++ [(k, v)]

/-- Dict lookup rank_to_player.get(rank). -/
def rmGet (m : RankMap) (k : Int) : Option String :=
  (List.find? (fun e => e.1 == k) m).map Prod.snd

/-- required_ranks.issubset(rank_to_player.keys()): every rank of the window
[s, e] has a binding. -/
def covered (s e : Int) (m : RankMap) : Bool :=
  (intRange s (e + 1)).all (fun r => (rmGet m r).isSome)

/-- The inner loop of get_neighbor_players line 215-217: keep a row's
(rank, name) only when the rank is inside the window and the name is truthy. -/
def insertIfInWindow (s e : Int) (m : RankMap) (rn : Int × String) : RankMap :=
  if s ≤ rn.1 ∧ rn.1 ≤ e ∧ rn.2 ≠ "" then rmInsert m rn.1 rn.2 else m

/-- Candidate accumulation for one page_index: append page_index-1,
page_index and page_index+1 when non-negative and not already present
(lines 202-204). -/
def addCandidates (acc : List Int) (p : Int) : List Int :=
  [p - 1, p, p + 1].foldl
    (fun a c => if 0 ≤ c ∧ c ∉ a then a ++ [c] else a) acc

/-- Lines 196-204 of get_neighbor_players: the candidate leaderboard page
list for the rank window [start_rank, end_rank], under the fixed page size
of 25 and the page=1-for-ranks-1..25 convention.  Python // is floor
division, Int.fdiv. -/
def candidate_pages (start_rank end_rank : Int) : List Int :=
  (intRange (max 1 (max 1 ((start_rank - 1).fdiv 25 + 1) - 1))
    (max 1 ((end_rank - 1).fdiv 25 + 1) + 2)).foldl addCandidates []

/-- The effect of attempting one candidate page on the rank map: a failed
fetch leaves the map unchanged, a successful fetch merges the page's
in-window rows. -/
def mergePage (fp : Int → Except Unit (List (Int × String))) (s e : Int)
    (m : RankMap) (p : Int) : RankMap :=
  match fp p with
  | .error _ => m
  | .ok rows => rows.foldl (insertIfInWindow s e) m

/-- Whether the loop would break right after attempting page p from map m:
the fetch must succeed (an exception skips the subset check via continue)
and the merged map must cover the window. -/
def stopsAt (fp : Int → Except Unit (List (Int × String))) (s e : Int)
    (m : RankMap) (p : Int) : Bool :=
  (match fp p with | .error _ => false | .ok _ => true) &&
    covered s e (mergePage fp s e m p)

/-- The page-fetching loop of get_neighbor_players (lines 209-220), also
returning the list of pages actually attempted (instrumentation; the map
component is exactly what the Python loop builds). -/
def fetchLoop (fp : Int → Except Unit (List (Int × String))) (s e : Int) :
    List Int → RankMap → RankMap × List Int
  | [], m => (m, [])
  | p :: ps, m =>
    match fp p with
    | .error _ =>
      ((fetchLoop fp s e ps m).1, p :: (fetchLoop fp s e ps m).2)
    | .ok rows =>
      if covered s e (rows.foldl (insertIfInWindow s e) m) then
        (rows.foldl (insertIfInWindow s e) m, [p])
      else
        ((fetchLoop fp s e ps (rows.foldl (insertIfInWindow s e) m)).1,
          p :: (fetchLoop fp s e ps (rows.foldl (insertIfInWindow s e) m)).2)

/-- Lines 225-229: walk the window in ascending rank order, emitting each
resolved name once, deduplicated case-insensitively. -/
def orderedNames (m : RankMap) (s e : Int) : List String :=
  (intRange s (e + 1)).foldl
    (fun acc r =>
      match rmGet m r with
      | none => acc
      | some name =>
        if name ≠ "" ∧ lowerStr name ∉ acc.map lowerStr then acc ++ [name] else acc)
    []

/-- The anchor rank and window bounds: start_rank = max(1, rank - ahead),
end_rank = rank + behind. -/
def neighborWindow (ar ahead behind : Int) : Int × Int :=
  (max 1 (ar - ahead), ar + behind)

/-- The rank map get_neighbor_players accumulates for anchor rank ar. -/
def neighborMap (fp : Int → Except Unit (List (Int × String))) (ar ahead behind : Int) : RankMap :=
  let w := neighborWindow ar ahead behind
  (fetchLoop fp w.1 w.2 (candidate_pages w.1 w.2) []).1

/-- src/collector.py get_neighbor_players, with the two network dependencies
as oracles: raw is the fetch_raw outcome for the anchor (feeding
get_overall_rank) and fp gives each overall page's parsed rows
(fetch_overall_page_rows, whose exceptions are error).  Python's
`if not anchor_rank` is true for both None and 0. -/
def get_neighbor_players (raw : Except Unit (List String))
    (fp : Int → Except Unit (List (Int × String)))
    (anchor_player : String) (ahead_count behind_count : Int) : List String :=
  match get_overall_rank raw with
  | none => []
  | some ar =>
    if ar = 0 then []
    else if neighborMap fp ar ahead_count behind_count = ([] : RankMap) then []
    else if lowerStr anchor_player ∈
        (orderedNames (neighborMap fp ar ahead_count behind_count)
          (neighborWindow ar ahead_count behind_count).1
          (neighborWindow ar ahead_count behind_count).2).map lowerStr then
      orderedNames (neighborMap fp ar ahead_count behind_count)
        (neighborWindow ar ahead_count behind_count).1
        (neighborWindow ar ahead_count behind_count).2
    else
      orderedNames (neighborMap fp ar ahead_count behind_count)
        (neighborWindow ar ahead_count behind_count).1
        (neighborWindow ar ahead_count behind_count).2 ++ [anchor_player]

/-- src/collector.py constants for the default roster. -/
def ANCHOR_PLAYER : String := "XESPIS"

def ANCHOR_MODE : String := "regular"

def TRACK_AHEAD_COUNT : Int := 10

def TRACK_BEHIND_COUNT : Int := 3

def BASE_TRACKED_ENTRIES : List (String × String) :=
  [("tibble49", "regular"), (ANCHOR_PLAYER, ANCHOR_MODE)]

/-- The dedup key of build_default_entries: (player.lower(), mode). -/
def entryKey (e : String × String) : String × String := (lowerStr e.1, e.2)

/-- The dedup loop of build_default_entries (lines 250-257): seen is the
set of keys already kept, deduped the output so far. -/
def dedupAux : List (String × String) → List (String × String) →
    List (String × String) → List (String × String)
  | [], _, deduped => deduped
  | e :: rest, seen, deduped =>
    if entryKey e ∈ seen then dedupAux rest seen deduped
    else dedupAux rest (seen ++ [entryKey e]) (deduped ++ [e])

/-- The deduplication stage of build_default_entries: keep the first entry
for each (lowercased name, mode) key, preserving order. -/
def dedupEntries (entries : List (String × String)) : List (String × String) :=
  dedupAux entries [] []

/-- src/collector.py build_default_entries, with the resolver's output
supplied as an argument: extend the base roster with the neighbors (when
any) under ANCHOR_MODE, then deduplicate. -/
def build_default_entries (neighbors : List String) : List (String × String) :=
  let entries :=
    BASE_TRACKED_ENTRIES ++
      (if neighbors ≠ [] then neighbors.map (fun n => (n, ANCHOR_MODE)) else [])
  dedupEntries entries

/-- Synthetic leaderboard name for rank r, used by the window-completeness
scenario. -/
def synthName (r : Int) : String := "P" ++ toString r

/-- Synthetic overall page p (1-indexed, 25 entries): ranks (p-1)*25+1 .. p*25
with distinct names. -/
def synthPageRows (p : Int) : List (Int × String) :=
  (List.range 25).map (fun j => ((p - 1) * 25 + (j : Int) + 1, synthName ((p - 1) * 25 + (j : Int) + 1)))

/-- Synthetic page oracle with dense rank coverage 1-100: pages 1..4 hold
ranks 1..100, page 0 mirrors the first page (as the source comment notes the
upstream UI can), later pages are empty. -/
def synthPage (p : Int) : Except Unit (List (Int × String)) :=
  if p = 0 then .ok (synthPageRows 1)
  else if 1 ≤ p ∧ p ≤ 4 then .ok (synthPageRows p)
  else .ok []

/-- Synthetic fetch_raw outcome giving the anchor overall rank 50. -/
def synthRaw : Except Unit (List String) := .ok ["50,2000,12345678"]

example : get_overall_rank synthRaw = some 50 := by decide

example : candidate_pages 40 53 = [0, 1, 2, 3, 4, 5] := by decide

/-- A streamed markup event, the html.parser callback alphabet that
OverallTableParser consumes: handle_starttag, handle_endtag, handle_data. -/
inductive HEvent
  | startTag (tag : String)
  | endTag (tag : String)
  | data (s : String)
deriving DecidableEq

/-- OverallTableParser's mutable state, plus trace: the cell lists of all
completed table rows, instrumentation used to speak about rows (the Python
object only keeps rows, the extracted pairs). -/
structure PState where
  rows : List (Int × String)
  trace : List (List String)
  in_tr : Bool
  in_td : Bool
  current_td : String
  current_row : List String
deriving DecidableEq

/-- The parser's initial state (OverallTableParser.__init__). -/
def initPS : PState :=
  { rows := [], trace := [], in_tr := false, in_td := false, current_td := "", current_row := [] }

/-- Python str.split() with no argument: the maximal whitespace-free runs,
empty runs dropped.  cur accumulates the current run in reverse. -/
def wsTokensAux : List Char → List Char → List (List Char)
  | [], cur => if cur = [] then [] else [cur.reverse]
  | c :: rest, cur =>
    if c.isWhitespace then
      if cur = [] then wsTokensAux rest [] else cur.reverse :: wsTokensAux rest []
    else wsTokensAux rest (c :: cur)

/-- Python " ".join(s.split()): collapse every whitespace run to a single
space and drop leading/trailing whitespace. -/
def collapse (s : String) : String :=
  String.intercalate " " ((wsTokensAux s.toList []).map List.asString)

/-- Python str.replace(",", ""): drop every comma. -/
def stripCommas (s : String) : String := (s.toList.filter (fun c => c ≠ ',')).asString

/-- Python str.isdigit(), restricted to ASCII decimal digits: non-empty and
all digits.  This is the ASCII projection of the check; pyIsDigitStr below
is the faithful version covering non-ASCII digit characters, for which
isdigit and int() can disagree. -/
def isDigitsStr (s : String) : Bool := s.toList ≠ [] && s.toList.all Char.isDigit

/-- The decimal digit value of a character (Unicode category Nd), which is
exactly what int() accepts.  Modelled subset of the Nd table: ASCII 0-9 and
the Arabic-Indic digits U+0660-U+0669; every other Nd character behaves like
these two blocks. -/
def decimalVal (c : Char) : Option Nat :=
  if c.isDigit then some (c.toNat - 48)
  else if '٠' ≤ c ∧ c ≤ '٩' then some (c.toNat - 1632)
  else none

/-- Python's per-character str.isdigit() test: true for every Nd digit and
also for digit-property characters that int() rejects.  Modelled subset of
the latter class: the superscripts U+00B9, U+00B2, U+00B3. -/
def pyCharIsDigit (c : Char) : Bool :=
  (decimalVal c).isSome || c == '¹' || c == '²' || c == '³'

/-- Python str.isdigit(): non-empty and every character a digit character. -/
def pyIsDigitStr (s : String) : Bool := s.toList ≠ [] && s.toList.all pyCharIsDigit

/-- Python int() applied to a string that passed isdigit(): the decimal
value when every character is a decimal digit (Nd), a ValueError otherwise
(digit-property characters like '²' pass isdigit but are rejected here). -/
def pyIntDigits (s : String) : Except Unit Nat :=
  if s.toList.all (fun c => (decimalVal c).isSome) then
    .ok (s.toList.foldl (fun a c => 10 * a + (decimalVal c).getD 0) 0)
  else .error ()

/-- The candidate text of line 116: cell.replace(",", "").strip(). -/
def digitText (cell : String) : String := (trimChars (stripCommas cell).toList).asString

/-- The rank-cell search of handle_endtag (lines 114-119): the index of the
first cell whose comma-stripped, stripped text is all digits.  ASCII
projection of the check; findRankIdxPy below is the faithful version. -/
def findRankIdx : List String → Option Nat
  | [] => none
  | cell :: rest =>
    if isDigitsStr (digitText cell) then some 0
    else (findRankIdx rest).map (fun i => i + 1)

/-- The row-completion logic of handle_endtag "tr" (lines 113-125): at least
3 cells, a rank cell followed by another cell, the following cell non-empty
after strip; the emitted rank is int() of the digit text.  On ASCII digit
text this coincides with the program; extractRowPy below also models the
ValueError from int() on non-decimal digit text. -/
def extractRow (row : List String) : Option (Int × String) :=
  if 3 ≤ row.length then
    match findRankIdx row with
    | none => none
    | some i =>
      if i + 1 < row.length then
        if isDigitsStr (digitText (row.getD i "")) ∧
            (trimChars (row.getD (i + 1) "").toList).asString ≠ "" then
          some ((digitsVal (digitText (row.getD i "")).toList : Int),
            (trimChars (row.getD (i + 1) "").toList).asString)
        else none
      else none
  else none

/-- OverallTableParser.handle_starttag. -/
def handleStart (st : PState) (tag : String) : PState :=
  if tag = "tr" then { st with in_tr := true, current_row := [] }
  else if tag = "td" ∧ st.in_tr then { st with in_td := true, current_td := "" }
  else st

/-- OverallTableParser.handle_endtag; a closing tr records the completed
row in the trace and appends the extracted pair, if any, to rows. -/
def handleEnd (st : PState) (tag : String) : PState :=
  if tag = "td" ∧ st.in_td then
    { st with in_td := false, current_row := st.current_row ++ [collapse st.current_td] }
  else if tag = "tr" ∧ st.in_tr then
    { st with in_tr := false,
              trace := st.trace ++ [st.current_row],
              rows := match extractRow st.current_row with
                      | none => st.rows
                      | some rn => st.rows ++ [rn] }
  else st

/-- OverallTableParser.handle_data: accumulate text inside a td (Python's
`if self._in_td and data` is false for the empty string). -/
def handleData (st : PState) (s : String) : PState :=
  if st.in_td ∧ s ≠ "" then { st with current_td := st.current_td ++ s } else st

/-- Dispatch one markup event to the matching handler. -/
def pstep (st : PState) (ev : HEvent) : PState :=
  match ev with
  | .startTag t => handleStart st t
  | .endTag t => handleEnd st t
  | .data s => handleData st s

/-- Feed a whole event stream to a fresh OverallTableParser and read
parser.rows. -/
def runParser (evs : List HEvent) : List (Int × String) :=
  ((evs.foldl pstep initPS).rows)

/-- The cell lists of the table rows completed while feeding the stream. -/
def rowTrace (evs : List HEvent) : List (List String) :=
  ((evs.foldl pstep initPS).trace)

/-- The rank-cell search with Python's full isdigit semantics. -/
def findRankIdxPy : List String → Option Nat
  | [] => none
  | cell :: rest =>
    if pyIsDigitStr (digitText cell) then some 0
    else (findRankIdxPy rest).map (fun i => i + 1)

/-- The row-completion logic of handle_endtag "tr" with Python's digit
semantics: the isdigit-and-truthy-name condition is evaluated first, then
int(rank_text) runs — and raises ValueError (error) when the digit text is
not decimally convertible; otherwise the pair, if any, is returned. -/
def extractRowPy (row : List String) : Except Unit (Option (Int × String)) :=
  if 3 ≤ row.length then
    match findRankIdxPy row with
    | none => .ok none
    | some i =>
      if i + 1 < row.length then
        if pyIsDigitStr (digitText (row.getD i "")) ∧
            (trimChars (row.getD (i + 1) "").toList).asString ≠ "" then
          match pyIntDigits (digitText (row.getD i "")) with
          | .error e => .error e
          | .ok v => .ok (some ((v : Int), (trimChars (row.getD (i + 1) "").toList).asString))
        else .ok none
      else .ok none
  else .ok none

/-- One event of the faithful parser: a ValueError inside handle_endtag
propagates (aborting the feed); otherwise the state advances as in the
total machine. -/
def pstepPy (st : PState) (ev : HEvent) : Except Unit PState :=
  match ev with
  | .startTag t => .ok (handleStart st t)
  | .data s => .ok (handleData st s)
  | .endTag t =>
    if t = "td" ∧ st.in_td then
      .ok { st with in_td := false,
                    current_row := st.current_row ++ [collapse st.current_td] }
    else if t = "tr" ∧ st.in_tr then
      match extractRowPy st.current_row with
      | .error e => .error e
      | .ok none => .ok { st with in_tr := false, trace := st.trace ++ [st.current_row] }
      | .ok (some rn) =>
        .ok { st with in_tr := false, trace := st.trace ++ [st.current_row],
                      rows := st.rows ++ [rn] }
    else .ok st

/-- Feed a whole event stream through the faithful parser; the first raise
aborts the feed. -/
def feedPy : PState → List HEvent → Except Unit PState
  | st, [] => .ok st
  | st, ev :: rest =>
    match pstepPy st ev with
    | .error e => .error e
    | .ok st2 => feedPy st2 rest

/-- parser.rows after feeding a fresh faithful parser, or the propagated
ValueError. -/
def runParserPy (evs : List HEvent) : Except Unit (List (Int × String)) :=
  match feedPy initPS evs with
  | .error e => .error e
  | .ok st => .ok st.rows

/-- The pair a completed row contributes when the feed does not raise. -/
def rowPairPy (row : List String) : Option (Int × String) :=
  match extractRowPy row with
  | .error _ => none
  | .ok o => o

/-- The completed-row trace of a successful faithful feed. -/
def pyTrace (evs : List HEvent) : List (List String) :=
  match feedPy initPS evs with
  | .error _ => []
  | .ok st => st.trace

example : extractRowPy ["1,234", "Zezima the Great", "2277"] =
    .ok (some (1234, "Zezima the Great")) := by decide
example : extractRowPy ["٣", "x", "y"] = .ok (some (3, "x")) := by decide
example : extractRowPy ["²", "x", "y"] = .error () := by decide
example : pyIsDigitStr "²" = true ∧ isDigitsStr "²" = false := by decide

/-- A small concrete page: a header row without digits, then two data rows. -/
def sampleEvents : List HEvent :=
  [.startTag "tr", .startTag "td", .data "Rank", .endTag "td",
   .startTag "td", .data "Name", .endTag "td",
   .startTag "td", .data "Level", .endTag "td", .endTag "tr",
   .startTag "tr", .startTag "td", .data "1,234", .endTag "td",
   .startTag "td", .data " Zezima  the   Great ", .endTag "td",
   .startTag "td", .data "2277", .endTag "td", .endTag "tr",
   .startTag "tr", .startTag "td", .data "77", .endTag "td",
   .startTag "td", .data "Woox", .endTag "td",
   .startTag "td", .data "2277", .endTag "td", .endTag "tr"]

example : runParser sampleEvents = [(1234, "Zezima the Great"), (77, "Woox")] := by decide

example : runParserPy sampleEvents = .ok [(1234, "Zezima the Great"), (77, "Woox")] := by
  decide

example : get_neighbor_players synthRaw synthPage "P50" 10 3 =
    ["P40", "P41", "P42", "P43", "P44", "P45", "P46", "P47", "P48", "P49",
     "P50", "P51", "P52", "P53"] := by decide

example : (fetchLoop synthPage 40 53 (candidate_pages 40 53) []).2 = [0, 1, 2, 3] := by decide

example : parse_int "-1" = none := by decide
example : parse_int "50" = some 50 := by decide
example : parse_int "" = none := by decide
example : parse_int "abc" = none := by decide
example : parse_int " -7 " = some (-7) := by decide
example : parseLines ["0"] = .error () := rfl
example : parseLines ["1,2"] =
    .ok ([{ skill := "Overall", rank := some 1, level := some 2, xp := none }], []) := rfl

/-- Case analysis of store_snapshot: either something failed and the visible
database is unchanged with an error outcome, or the parse succeeded, no
insert faulted, and all three tables grew together. -/
theorem store_snapshot_cases (fault : WriteStep → Bool) (db : DB)
    (player mode ts date : String) (lines : List String) :
    ((store_snapshot fault db player mode ts date lines).2 = .error () ∧
      (store_snapshot fault db player mode ts date lines).1 = db) ∨
    (∃ srows mrows, parseLines lines = .ok (srows, mrows) ∧
      fault .header = false ∧ fault .skillRows = false ∧ fault .minigameRows = false ∧
      (store_snapshot fault db player mode ts date lines).2 = .ok (db.snapshots.length + 1) ∧
      (store_snapshot fault db player mode ts date lines).1 =
        { snapshots := db.snapshots ++ [⟨db.snapshots.length + 1, lowerStr player, mode, ts, date⟩],
          skills := db.skills ++ srows.map (fun r => (db.snapshots.length + 1, r)),
          minigames := db.minigames ++ mrows.map (fun r => (db.snapshots.length + 1, r)) }) := by
  rcases hp : parseLines lines with e | ⟨srows, mrows⟩
  · cases e
    left
    constructor <;> simp [store_snapshot, hp]
  · cases h1 : fault WriteStep.header
    · cases h2 : fault WriteStep.skillRows
      · cases h3 : fault WriteStep.minigameRows
        · right
          refine ⟨srows, mrows, rfl, rfl, rfl, rfl, ?_, ?_⟩ <;>
            simp [store_snapshot, runTxn, hp, h1, h2, h3]
        · left
          constructor <;> simp [store_snapshot, runTxn, hp, h1, h2, h3]
      · left
        constructor <;> simp [store_snapshot, runTxn, hp, h1, h2]
    · left
      constructor <;> simp [store_snapshot, runTxn, hp, h1]

/-- C1: store_snapshot writes the snapshot header row, all skill rows and all
minigame rows inside one transaction: whenever anything in that scope fails
the visible database is exactly the input database (no header, skill or
minigame row of the snapshot is visible) and the caller gets a failure; on
success all rows are visible together, tagged with the new snapshot id. -/
theorem store_snapshot_atomic (fault : WriteStep → Bool) (db : DB)
    (player mode ts date : String) (lines : List String) :
    ((store_snapshot fault db player mode ts date lines).2 = .error () →
      (store_snapshot fault db player mode ts date lines).1 = db) ∧
    (∀ id, (store_snapshot fault db player mode ts date lines).2 = .ok id →
      ∃ srows mrows, parseLines lines = .ok (srows, mrows) ∧
        (store_snapshot fault db player mode ts date lines).1.snapshots =
          db.snapshots ++ [⟨id, lowerStr player, mode, ts, date⟩] ∧
        (store_snapshot fault db player mode ts date lines).1.skills =
          db.skills ++ srows.map (fun r => (id, r)) ∧
        (store_snapshot fault db player mode ts date lines).1.minigames =
          db.minigames ++ mrows.map (fun r => (id, r))) := by
  rcases store_snapshot_cases fault db player mode ts date lines with
    ⟨he, hdb⟩ | ⟨s, m, hp, _, _, _, hok, hdb⟩
  · refine ⟨fun _ => hdb, fun id hid => ?_⟩
    rw [he] at hid
    cases hid
  · constructor
    · intro h
      rw [hok] at h
      cases h
    · intro id hid
      rw [hok] at hid
      injection hid with hi
      subst hi
      exact ⟨s, m, hp, by rw [hdb], by rw [hdb], by rw [hdb]⟩

/-- A fault oracle that interrupts exactly the minigame-row insert, the
simulated fault of the spec's atomicity property. -/
def faultMini : WriteStep → Bool := fun w => decide (w = .minigameRows)

/-- The empty database. -/
def emptyDB : DB := ⟨[], [], []⟩

/-- Witness for C1: with the minigame-row insert interrupted after the
header and skill rows were staged, the store reports failure and no row of
the snapshot is visible. -/
theorem store_snapshot_atomic_witness :
    (store_snapshot faultMini emptyDB "tibble49" "regular" "t" "d" ["1,2,3"]).2 = .error () ∧
    (store_snapshot faultMini emptyDB "tibble49" "regular" "t" "d" ["1,2,3"]).1 = emptyDB :=
  ⟨by decide,
   (store_snapshot_atomic faultMini emptyDB "tibble49" "regular" "t" "d" ["1,2,3"]).1 (by decide)⟩

/-- C2 counterexample: the claim says a numeric field whose position is
missing always normalizes to absent without raising, for every skill field.
But the skill branch of store_snapshot indexes parts[1] (the level field)
without a bounds guard, so the single line "0" — one comma-separated part —
raises IndexError (the parse aborts with an error) instead of producing a
skill row with an absent level. -/
theorem parse_lines_short_skill_line_raises : parseLines ["0"] = .error () := rfl

/-- parseSkillLine succeeds as soon as the line has at least two
comma-separated parts. -/
theorem parseSkillLine_ok (i : Nat) (line : String)
    (h : 2 ≤ (pySplitComma line).length) :
    ∃ r, parseSkillLine i line = .ok r := by
  unfold parseSkillLine
  cases h0 : (pySplitComma line).get? 0 with
  | none =>
    rw [List.get?_eq_none] at h0
    omega
  | some p0 =>
    cases h1 : (pySplitComma line).get? 1 with
    | none =>
      rw [List.get?_eq_none] at h1
      omega
    | some p1 => exact ⟨_, rfl⟩

/-- Totality of the parsing loop from index i, provided the lines still in
the skill range have at least two parts; the produced row counts show no
line is dropped. -/
theorem parseLinesAux_ok (lines : List String) (i : Nat)
    (h : ∀ line ∈ lines.take (SKILL_NAMES.length - i), 2 ≤ (pySplitComma line).length) :
    ∃ srows mrows, parseLinesAux i lines = .ok (srows, mrows) ∧
      srows.length = min lines.length (SKILL_NAMES.length - i) ∧
      mrows.length = lines.length - (SKILL_NAMES.length - i) := by
  induction lines generalizing i with
  | nil => exact ⟨[], [], rfl, by simp, by simp⟩
  | cons line rest ih =>
    by_cases hi : i < SKILL_NAMES.length
    · have htake : (line :: rest).take (SKILL_NAMES.length - i) =
          line :: rest.take (SKILL_NAMES.length - (i + 1)) := by
        have : SKILL_NAMES.length - i = (SKILL_NAMES.length - (i + 1)) + 1 := by omega
        rw [this, List.take_succ_cons]
      obtain ⟨r, hr⟩ := parseSkillLine_ok i line (h line (by rw [htake]; exact List.mem_cons_self _ _))
      obtain ⟨ss, ms, hrec, hsl, hml⟩ := ih (i + 1)
        (fun l hl => h l (by rw [htake]; exact List.mem_cons_of_mem _ hl))
      refine ⟨r :: ss, ms, ?_, ?_, ?_⟩
      · simp only [parseLinesAux, if_pos hi, hr, hrec]
      · simp only [List.length_cons]
        omega
      · simp only [List.length_cons]
        omega
    · obtain ⟨ss, ms, hrec, hsl, hml⟩ := ih (i + 1) (by
        intro l hl
        have h0 : SKILL_NAMES.length - (i + 1) = 0 := by omega
        rw [h0, List.take_zero] at hl
        cases hl)
      refine ⟨ss, parseMiniLine (i - SKILL_NAMES.length) line :: ms, ?_, ?_, ?_⟩
      · simp only [parseLinesAux, if_neg hi, hrec]
      · simp only [List.length_cons]
        omega
      · simp only [List.length_cons]
        omega

/-- C2 amended: parsing a line into a skill or minigame row never raises
provided every line in the skill range (index < len(SKILL_NAMES)) has at
least two comma-separated parts — rank and level are indexed unguarded —
and then every line yields exactly one row; the guarded fields (skill xp,
minigame rank and score) and all non-numeric fields normalize to the absent
value via parse_int even when missing. -/
theorem parse_lines_total_with_two_skill_fields (lines : List String)
    (h : ∀ line ∈ lines.take SKILL_NAMES.length, 2 ≤ (pySplitComma line).length) :
    ∃ srows mrows, parseLines lines = .ok (srows, mrows) ∧
      srows.length = min lines.length SKILL_NAMES.length ∧
      mrows.length = lines.length - SKILL_NAMES.length := by
  have := parseLinesAux_ok lines 0 (by simpa using h)
  simpa [parseLines] using this

/-- Witness for C2's amended theorem: three well-formed lines parse into
25-or-fewer skill rows and no minigame rows. -/
theorem parse_lines_total_witness :
    ∃ srows mrows, parseLines ["50,2000,1234", "-1,-1", "3,99,13034431"] = .ok (srows, mrows) ∧
      srows.length = min 3 SKILL_NAMES.length ∧
      mrows.length = 3 - SKILL_NAMES.length := by
  have := parse_lines_total_with_two_skill_fields
    ["50,2000,1234", "-1,-1", "3,99,13034431"] (by decide)
  simpa using this

/-- parse_int never returns the sentinel -1. -/
theorem parse_int_ne_neg_one (s : String) : parse_int s ≠ some (-1) := by
  unfold parse_int
  cases pyInt s with
  | none => simp
  | some v =>
    by_cases hv : v = -1 <;> simp [hv]

/-- Every field of a parsed skill row avoids the sentinel -1. -/
theorem parseSkillLine_no_neg (i : Nat) (line : String) (r : SkillRow)
    (h : parseSkillLine i line = .ok r) :
    r.rank ≠ some (-1) ∧ r.level ≠ some (-1) ∧ r.xp ≠ some (-1) := by
  unfold parseSkillLine at h
  cases h0 : (pySplitComma line).get? 0 with
  | none => rw [h0] at h; cases h
  | some p0 =>
    cases h1 : (pySplitComma line).get? 1 with
    | none => rw [h0, h1] at h; cases h
    | some p1 =>
      rw [h0, h1] at h
      injection h with h
      subst h
      refine ⟨parse_int_ne_neg_one p0, parse_int_ne_neg_one p1, ?_⟩
      by_cases hl : (pySplitComma line).length > 2 <;>
        simp [hl, parse_int_ne_neg_one]

/-- Every field of a parsed minigame row avoids the sentinel -1. -/
theorem parseMiniLine_no_neg (mi : Nat) (line : String) :
    (parseMiniLine mi line).rank ≠ some (-1) ∧ (parseMiniLine mi line).score ≠ some (-1) := by
  unfold parseMiniLine
  constructor
  · exact parse_int_ne_neg_one _
  · by_cases hl : (pySplitComma line).length > 1 <;>
      simp [hl, parse_int_ne_neg_one]

/-- No row produced by the parsing loop carries the sentinel -1 in a numeric
field. -/
theorem parseLinesAux_no_neg (lines : List String) (i : Nat)
    (ss : List SkillRow) (ms : List MiniRow)
    (h : parseLinesAux i lines = .ok (ss, ms)) :
    (∀ r ∈ ss, r.rank ≠ some (-1) ∧ r.level ≠ some (-1) ∧ r.xp ≠ some (-1)) ∧
    (∀ m ∈ ms, m.rank ≠ some (-1) ∧ m.score ≠ some (-1)) := by
  induction lines generalizing i ss ms with
  | nil =>
    unfold parseLinesAux at h
    injection h with h
    injection h with h1 h2
    subst h1
    subst h2
    simp
  | cons line rest ih =>
    unfold parseLinesAux at h
    by_cases hi : i < SKILL_NAMES.length
    · rw [if_pos hi] at h
      cases hr : parseSkillLine i line with
      | error e => rw [hr] at h; cases h
      | ok r =>
        rw [hr] at h
        cases hrec : parseLinesAux (i + 1) rest with
        | error e => rw [hrec] at h; cases h
        | ok p =>
          obtain ⟨ss2, ms2⟩ := p
          rw [hrec] at h
          injection h with h
          injection h with h1 h2
          subst h1
          subst h2
          obtain ⟨ihs, ihm⟩ := ih (i + 1) ss2 ms2 hrec
          refine ⟨?_, ihm⟩
          intro x hx
          rcases List.mem_cons.mp hx with hx | hx
          · subst hx
            exact parseSkillLine_no_neg i line x hr
          · exact ihs x hx
    · rw [if_neg hi] at h
      cases hrec : parseLinesAux (i + 1) rest with
      | error e => rw [hrec] at h; cases h
      | ok p =>
        obtain ⟨ss2, ms2⟩ := p
        rw [hrec] at h
        injection h with h
        injection h with h1 h2
        subst h1
        subst h2
        obtain ⟨ihs, ihm⟩ := ih (i + 1) ss2 ms2 hrec
        refine ⟨ihs, ?_⟩
        intro x hx
        rcases List.mem_cons.mp hx with hx | hx
        · subst hx
          exact parseMiniLine_no_neg _ line
        · exact ihm x hx

/-- C6: parse_int maps the raw field "-1" to the absent value, never returns
the integer -1 for any input, and since every numeric column of both child
tables goes through parse_int (with missing guarded fields becoming absent
directly), a successful store_snapshot never adds a row holding the sentinel
-1 in any numeric column. -/
theorem parse_int_absent_normalization :
    parse_int "-1" = none ∧
    (∀ s, parse_int s ≠ some (-1)) ∧
    (∀ fault db player mode ts date lines id,
      (store_snapshot fault db player mode ts date lines).2 = .ok id →
      (∀ sid row, (sid, row) ∈ (store_snapshot fault db player mode ts date lines).1.skills →
        (sid, row) ∈ db.skills ∨
          (row.rank ≠ some (-1) ∧ row.level ≠ some (-1) ∧ row.xp ≠ some (-1))) ∧
      (∀ sid row, (sid, row) ∈ (store_snapshot fault db player mode ts date lines).1.minigames →
        (sid, row) ∈ db.minigames ∨ (row.rank ≠ some (-1) ∧ row.score ≠ some (-1)))) := by
  refine ⟨by decide, parse_int_ne_neg_one, ?_⟩
  intro fault db player mode ts date lines id hok
  rcases store_snapshot_cases fault db player mode ts date lines with
    ⟨he, _⟩ | ⟨srows, mrows, hp, _, _, _, _, hdb⟩
  · rw [he] at hok
    cases hok
  · obtain ⟨hs, hm⟩ := parseLinesAux_no_neg lines 0 srows mrows hp
    constructor
    · intro sid row hmem
      rw [hdb] at hmem
      rcases List.mem_append.mp hmem with hmem | hmem
      · exact Or.inl hmem
      · obtain ⟨r, hr, heq⟩ := List.mem_map.mp hmem
        injection heq with _ h2
        subst h2
        exact Or.inr (hs r hr)
    · intro sid row hmem
      rw [hdb] at hmem
      rcases List.mem_append.mp hmem with hmem | hmem
      · exact Or.inl hmem
      · obtain ⟨r, hr, heq⟩ := List.mem_map.mp hmem
        injection heq with _ h2
        subst h2
        exact Or.inr (hm r hr)

/-- Witness for C6: storing the record whose every numeric field is the raw
"-1" succeeds and the stored skill row holds only absent values, never -1. -/
theorem parse_int_absent_normalization_witness :
    parse_int "-1" = none ∧
    (store_snapshot (fun _ => false) emptyDB "a" "regular" "t" "d" ["-1,-1,-1"]).2 = .ok 1 ∧
    ((1, SkillRow.mk "Overall" none none none) ∈
      (store_snapshot (fun _ => false) emptyDB "a" "regular" "t" "d" ["-1,-1,-1"]).1.skills ∧
     ((1, SkillRow.mk "Overall" none none none) ∈ emptyDB.skills ∨
       ((SkillRow.mk "Overall" none none none).rank ≠ some (-1) ∧
        (SkillRow.mk "Overall" none none none).level ≠ some (-1) ∧
        (SkillRow.mk "Overall" none none none).xp ≠ some (-1)))) := by
  refine ⟨parse_int_absent_normalization.1, by decide, by decide, ?_⟩
  exact (parse_int_absent_normalization.2.2 (fun _ => false) emptyDB "a" "regular" "t" "d"
    ["-1,-1,-1"] 1 (by decide)).1 1 (SkillRow.mk "Overall" none none none) (by decide)

/-- Recursive form of the dedup loop: keep an entry when its key is not in
seen, extending seen as we go. -/
def filterFirst : List (String × String) → List (String × String) → List (String × String)
  | [], _ => []
  | e :: rest, seen =>
    if entryKey e ∈ seen then filterFirst rest seen
    else e :: filterFirst rest (seen ++ [entryKey e])

/-- The accumulator loop dedupAux equals acc followed by filterFirst. -/
theorem dedupAux_eq_filterFirst (l : List (String × String)) :
    ∀ seen acc, dedupAux l seen acc = acc ++ filterFirst l seen := by
  induction l with
  | nil => intro seen acc; simp [dedupAux, filterFirst]
  | cons e rest ih =>
    intro seen acc
    by_cases h : entryKey e ∈ seen
    · simp [dedupAux, filterFirst, h, ih]
    · simp [dedupAux, filterFirst, h, ih]

/-- An entry kept by filterFirst comes from the input and its key was not
seen before the call. -/
theorem mem_filterFirst (l : List (String × String)) :
    ∀ seen x, x ∈ filterFirst l seen → entryKey x ∉ seen ∧ x ∈ l := by
  induction l with
  | nil => intro seen x hx; cases hx
  | cons e rest ih =>
    intro seen x hx
    by_cases h : entryKey e ∈ seen
    · rw [filterFirst, if_pos h] at hx
      obtain ⟨h1, h2⟩ := ih seen x hx
      exact ⟨h1, List.mem_cons_of_mem _ h2⟩
    · rw [filterFirst, if_neg h] at hx
      rcases List.mem_cons.mp hx with hx | hx
      · subst hx
        exact ⟨h, List.mem_cons_self _ _⟩
      · obtain ⟨h1, h2⟩ := ih _ x hx
        rw [List.mem_append] at h1
        push_neg at h1
        exact ⟨h1.1, List.mem_cons_of_mem _ h2⟩

/-- filterFirst emits no two entries with the same key. -/
theorem filterFirst_pairwise (l : List (String × String)) :
    ∀ seen, (filterFirst l seen).Pairwise (fun a b => entryKey a ≠ entryKey b) := by
  induction l with
  | nil => intro seen; simp [filterFirst]
  | cons e rest ih =>
    intro seen
    by_cases h : entryKey e ∈ seen
    · rw [filterFirst, if_pos h]
      exact ih seen
    · rw [filterFirst, if_neg h]
      refine List.Pairwise.cons ?_ (ih _)
      intro b hb hkey
      have := (mem_filterFirst rest _ b hb).1
      rw [List.mem_append] at this
      push_neg at this
      exact this.2 (by simp [hkey])

/-- filterFirst preserves the relative order of kept entries. -/
theorem filterFirst_sublist (l : List (String × String)) :
    ∀ seen, (filterFirst l seen).Sublist l := by
  induction l with
  | nil => intro seen; simp [filterFirst]
  | cons e rest ih =>
    intro seen
    by_cases h : entryKey e ∈ seen
    · rw [filterFirst, if_pos h]
      exact (ih seen).cons e
    · rw [filterFirst, if_neg h]
      exact (ih _).cons₂ e

/-- Every kept entry is the first entry of the input with its key. -/
theorem filterFirst_find (l : List (String × String)) :
    ∀ seen x, x ∈ filterFirst l seen →
      l.find? (fun y => decide (entryKey y = entryKey x)) = some x := by
  induction l with
  | nil => intro seen x hx; cases hx
  | cons e rest ih =>
    intro seen x hx
    by_cases h : entryKey e ∈ seen
    · rw [filterFirst, if_pos h] at hx
      have hne : entryKey e ≠ entryKey x := by
        intro heq
        exact (mem_filterFirst rest seen x hx).1 (heq ▸ h)
      rw [List.find?_cons_of_neg _ (by simp [hne]), ih seen x hx]
    · rw [filterFirst, if_neg h] at hx
      rcases List.mem_cons.mp hx with hx | hx
      · subst hx
        rw [List.find?_cons_of_pos _ (by simp)]
      · have hnotin := (mem_filterFirst rest _ x hx).1
        rw [List.mem_append] at hnotin
        push_neg at hnotin
        have hne : entryKey e ≠ entryKey x := by
          intro heq
          exact hnotin.2 (by simp [heq])
        rw [List.find?_cons_of_neg _ (by simp [hne]), ih _ x hx]

/-- C4: the tracked-entry build's dedup stage keeps no two entries with the
same (lowercased name, mode) key, keeps for each key the first-seen entry,
and preserves the relative order of the kept entries; build_default_entries
is exactly that dedup applied to the base roster extended with the resolved
neighbors. -/
theorem tracked_entries_dedup (entries : List (String × String)) :
    (dedupEntries entries).Pairwise (fun a b => entryKey a ≠ entryKey b) ∧
    (dedupEntries entries).Sublist entries ∧
    (∀ x ∈ dedupEntries entries,
      entries.find? (fun y => decide (entryKey y = entryKey x)) = some x) ∧
    (∀ neighbors, build_default_entries neighbors =
      dedupEntries (BASE_TRACKED_ENTRIES ++
        (if neighbors ≠ [] then neighbors.map (fun n => (n, ANCHOR_MODE)) else []))) := by
  have he : dedupEntries entries = filterFirst entries [] := by
    rw [dedupEntries, dedupAux_eq_filterFirst]
    simp
  refine ⟨?_, ?_, ?_, fun _ => rfl⟩
  · rw [he]
    exact filterFirst_pairwise entries []
  · rw [he]
    exact filterFirst_sublist entries []
  · rw [he]
    exact filterFirst_find entries []

/-- Witness for C4, on a list with a case-insensitive duplicate name: the
first-seen entry is kept, the later duplicate dropped, order preserved. -/
theorem tracked_entries_dedup_witness :
    dedupEntries [("XESPIS", "regular"), ("xespis", "regular"), ("Bob", "ironman")] =
      [("XESPIS", "regular"), ("Bob", "ironman")] ∧
    [("XESPIS", "regular"), ("xespis", "regular"), ("Bob", "ironman")].find?
      (fun y => decide (entryKey y = entryKey ("XESPIS", "regular"))) =
      some ("XESPIS", "regular") := by
  refine ⟨by decide, ?_⟩
  exact (tracked_entries_dedup
    [("XESPIS", "regular"), ("xespis", "regular"), ("Bob", "ironman")]).2.2.1
    ("XESPIS", "regular") (by decide)

/-- C8: a 404 from the hiscores endpoint raises the distinct NotFound
condition, which is never equal to the FetchFailed condition of any other
non-success status; collect catches each entry's failure inside the loop,
leaves the database untouched for a failing entry, and processes the
remaining entries exactly as if the failing entry were absent. -/
theorem fetch_raw_not_found_isolated :
    (∀ (resp : HttpResponse) (player mode : String), resp.status = 404 →
      fetch_raw resp player mode = .error (.notFound player mode)) ∧
    (∀ player mode status, FetchErr.notFound player mode ≠ FetchErr.httpError status) ∧
    (∀ responses fault ts date db player mode rest,
      collect responses fault ts date db ((player, mode) :: rest) =
        ((collect responses fault ts date
            (collectEntry responses fault ts date db player mode).1 rest).1,
         (collectEntry responses fault ts date db player mode).2 ::
           (collect responses fault ts date
             (collectEntry responses fault ts date db player mode).1 rest).2)) ∧
    (∀ responses fault ts date db player mode,
      (collectEntry responses fault ts date db player mode).2 = .error () →
      (collectEntry responses fault ts date db player mode).1 = db) ∧
    (∀ responses fault ts date db player mode rest,
      (collectEntry responses fault ts date db player mode).2 = .error () →
      collect responses fault ts date db ((player, mode) :: rest) =
        ((collect responses fault ts date db rest).1,
         .error () :: (collect responses fault ts date db rest).2)) := by
  have hdb : ∀ responses fault ts date db player mode,
      (collectEntry responses fault ts date db player mode).2 = .error () →
      (collectEntry responses fault ts date db player mode).1 = db := by
    intro responses fault ts date db player mode herr
    cases hf : fetch_raw (responses player mode) player mode with
    | error e =>
      have hce : collectEntry responses fault ts date db player mode = (db, .error ()) := by
        unfold collectEntry
        rw [hf]
      rw [hce]
    | ok lines =>
      have hce : collectEntry responses fault ts date db player mode =
          store_snapshot (fault player mode) db player mode ts date lines := by
        unfold collectEntry
        rw [hf]
      rw [hce] at herr ⊢
      rcases store_snapshot_cases (fault player mode) db player mode ts date lines with
        ⟨_, h1⟩ | ⟨_, _, _, _, _, _, hok, _⟩
      · exact h1
      · rw [hok] at herr
        cases herr
  refine ⟨?_, ?_, fun _ _ _ _ _ _ _ _ => rfl, hdb, ?_⟩
  · intro resp player mode h
    rw [fetch_raw, if_pos h]
  · intro player mode status h
    cases h
  · intro responses fault ts date db player mode rest herr
    have h1 := hdb responses fault ts date db player mode herr
    show (_, (collectEntry responses fault ts date db player mode).2 :: _) = _
    rw [h1, herr]

/-- Oracle for the C8 witness: the first entry's account is missing (404),
the second returns a record. -/
def respOracle : String → String → HttpResponse :=
  fun p _ => if p = "doesnotexist" then ⟨404, ""⟩ else ⟨200, "7,100,200"⟩

/-- Witness for C8: the 404 surfaces as NotFound, and in a batch whose first
entry fails, the second entry's snapshot is still stored. -/
theorem fetch_raw_not_found_isolated_witness :
    fetch_raw ⟨404, ""⟩ "doesnotexist" "regular" = .error (.notFound "doesnotexist" "regular") ∧
    collect respOracle (fun _ _ _ => false) "t" "d" emptyDB
        [("doesnotexist", "regular"), ("tibble49", "regular")] =
      ({ snapshots := [⟨1, "tibble49", "regular", "t", "d"⟩],
         skills := [(1, ⟨"Overall", some 7, some 100, some 200⟩)],
         minigames := [] },
       [.error (), .ok 1]) := by
  constructor
  · exact fetch_raw_not_found_isolated.1 ⟨404, ""⟩ "doesnotexist" "regular" rfl
  · rw [fetch_raw_not_found_isolated.2.2.2.2 respOracle (fun _ _ _ => false) "t" "d" emptyDB
      "doesnotexist" "regular" [("tibble49", "regular")] (by decide)]
    decide

/-- C9: whenever get_neighbor_players returns a non-empty sequence the
anchor's name is present case-insensitively (force-appended if it never
appeared in the rank map); when the anchor's rank is unavailable, or the
rank map stayed empty because no fetched page contributed a rank in the
window, the result is the empty sequence rather than an error. -/
theorem get_neighbor_players_anchor (raw : Except Unit (List String))
    (fp : Int → Except Unit (List (Int × String))) (anchor : String) (ahead behind : Int) :
    (get_neighbor_players raw fp anchor ahead behind ≠ [] →
      lowerStr anchor ∈ (get_neighbor_players raw fp anchor ahead behind).map lowerStr) ∧
    (get_overall_rank raw = none → get_neighbor_players raw fp anchor ahead behind = []) ∧
    (∀ ar, get_overall_rank raw = some ar → ar ≠ 0 →
      neighborMap fp ar ahead behind = [] →
      get_neighbor_players raw fp anchor ahead behind = []) := by
  cases hr : get_overall_rank raw with
  | none =>
    have hg : get_neighbor_players raw fp anchor ahead behind = [] := by
      unfold get_neighbor_players
      rw [hr]
    rw [hg]
    exact ⟨fun h => absurd rfl h, fun _ => rfl, fun ar har => by cases har⟩
  | some ar =>
    have hg : get_neighbor_players raw fp anchor ahead behind =
        (if ar = 0 then []
         else if neighborMap fp ar ahead behind = ([] : RankMap) then []
         else if lowerStr anchor ∈
             (orderedNames (neighborMap fp ar ahead behind)
               (neighborWindow ar ahead behind).1
               (neighborWindow ar ahead behind).2).map lowerStr then
           orderedNames (neighborMap fp ar ahead behind)
             (neighborWindow ar ahead behind).1
             (neighborWindow ar ahead behind).2
         else
           orderedNames (neighborMap fp ar ahead behind)
             (neighborWindow ar ahead behind).1
             (neighborWindow ar ahead behind).2 ++ [anchor]) := by
      unfold get_neighbor_players
      rw [hr]
    rw [hg]
    by_cases ha : ar = 0
    · rw [if_pos ha]
      refine ⟨fun h => absurd rfl h, fun h => Option.noConfusion h, ?_⟩
      intro ar2 har2 hne _
      injection har2 with h2
      exact absurd (h2 ▸ ha) hne
    · rw [if_neg ha]
      by_cases hm : neighborMap fp ar ahead behind = ([] : RankMap)
      · rw [if_pos hm]
        exact ⟨fun h => absurd rfl h, fun h => Option.noConfusion h, fun _ _ _ _ => rfl⟩
      · rw [if_neg hm]
        refine ⟨?_, fun h => Option.noConfusion h, ?_⟩
        · intro _
          by_cases hmem : lowerStr anchor ∈
              (orderedNames (neighborMap fp ar ahead behind)
                (neighborWindow ar ahead behind).1
                (neighborWindow ar ahead behind).2).map lowerStr
          · rw [if_pos hmem]
            exact hmem
          · rw [if_neg hmem, List.map_append]
            exact List.mem_append_right _ (by simp)
        · intro ar2 har2 _ hm2
          injection har2 with h2
          subst h2
          exact absurd hm2 hm

/-- Witness for C9: on the synthetic dense pages the anchor P50 is present
in the non-empty output, and with the anchor fetch failing the resolver
returns the empty sequence. -/
theorem get_neighbor_players_anchor_witness :
    lowerStr "P50" ∈ (get_neighbor_players synthRaw synthPage "P50" 10 3).map lowerStr ∧
    get_neighbor_players (.error ()) synthPage "P50" 10 3 = [] := by
  constructor
  · exact (get_neighbor_players_anchor synthRaw synthPage "P50" 10 3).1 (by decide)
  · exact (get_neighbor_players_anchor (.error ()) synthPage "P50" 10 3).2.1 rfl

/-- C3: with the anchor account at overall rank 50 and ahead=10, behind=3 —
target window [40, 53] — and synthetic pages densely covering ranks 1-100
with distinct names, get_neighbor_players returns exactly the names at ranks
40 through 53, in ascending rank order, with no duplicates. -/
theorem neighbor_window_completeness :
    get_neighbor_players synthRaw synthPage "P50" 10 3 = (intRange 40 54).map synthName ∧
    get_neighbor_players synthRaw synthPage "P50" 10 3 =
      ["P40", "P41", "P42", "P43", "P44", "P45", "P46", "P47", "P48", "P49",
       "P50", "P51", "P52", "P53"] ∧
    (get_neighbor_players synthRaw synthPage "P50" 10 3).Nodup := by
  refine ⟨by decide, by decide, by decide⟩

theorem mem_intRange (a b c : Int) : c ∈ intRange a b ↔ a ≤ c ∧ c < b := by
  unfold intRange
  simp only [List.mem_map, List.mem_range]
  constructor
  · rintro ⟨i, hi, rfl⟩
    omega
  · rintro ⟨h1, h2⟩
    exact ⟨(c - a).toNat, by omega, by omega⟩

theorem intRange_snoc (a b : Int) (h : a ≤ b) :
    intRange a (b + 1) = intRange a b ++ [b] := by
  unfold intRange
  have h1 : (b + 1 - a).toNat = (b - a).toNat + 1 := by omega
  rw [h1, List.range_succ, List.map_append]
  simp only [List.map_cons, List.map_nil]
  have h2 : a + ((b - a).toNat : Int) = b := by omega
  rw [h2]

theorem intRange_empty (a b : Int) (h : b ≤ a) : intRange a b = [] := by
  unfold intRange
  have h1 : (b - a).toNat = 0 := by omega
  rw [h1]
  rfl

theorem intRange_single (a : Int) : intRange a (a + 1) = [a] := by
  rw [intRange_snoc a a le_rfl, intRange_empty a a le_rfl]
  rfl

theorem intRange_pairwise (a b : Int) : (intRange a b).Pairwise (· < ·) := by
  unfold intRange
  refine List.Pairwise.map _ ?_ (List.pairwise_lt_range _)
  intro i j hij
  omega

/-- The three integers x, x+1, x+2 as a range. -/
theorem intRange_three (x : Int) : intRange x (x + 3) = [x, x + 1, x + 2] := by
  unfold intRange
  have h3 : (x + 3 - x).toNat = 3 := by omega
  rw [h3]
  have hr : List.range 3 = [0, 1, 2] := rfl
  rw [hr]
  simp only [List.map_cons, List.map_nil]
  norm_num

/-- Appending a page index already inside the accumulated range does
nothing; appending the next one extends the range. -/
theorem addCandidates_mid (a q : Int) (h0 : 0 ≤ a) (h1 : a ≤ q - 1) :
    addCandidates (intRange a (q + 1)) q = intRange a (q + 2) := by
  have hm1 : ¬((0 : Int) ≤ q - 1 ∧ q - 1 ∉ intRange a (q + 1)) :=
    fun h => h.2 ((mem_intRange a (q + 1) (q - 1)).mpr ⟨by omega, by omega⟩)
  have hm2 : ¬((0 : Int) ≤ q ∧ q ∉ intRange a (q + 1)) :=
    fun h => h.2 ((mem_intRange a (q + 1) q).mpr ⟨by omega, by omega⟩)
  have hm3 : (0 : Int) ≤ q + 1 ∧ q + 1 ∉ intRange a (q + 1) :=
    ⟨by omega, fun hc => by rw [mem_intRange] at hc; omega⟩
  unfold addCandidates
  simp only [List.foldl_cons, List.foldl_nil, if_neg hm1, if_neg hm2, if_pos hm3]
  have hs := intRange_snoc a (q + 1) (by omega)
  have he : q + 1 + 1 = q + 2 := by ring
  rw [he] at hs
  exact hs.symm

theorem addCandidates_start (a : Int) (h : 1 ≤ a) :
    addCandidates [] a = [a - 1, a, a + 1] := by
  unfold addCandidates
  simp only [List.foldl_cons, List.foldl_nil]
  rw [if_pos (⟨by omega, by simp⟩ : (0 : Int) ≤ a - 1 ∧ a - 1 ∉ ([] : List Int))]
  rw [List.nil_append]
  rw [if_pos (⟨by omega, by simp only [List.mem_singleton]; omega⟩ :
    (0 : Int) ≤ a ∧ a ∉ [a - 1])]
  rw [if_pos (⟨by omega, by
    simp only [List.mem_append, List.mem_singleton]
    push_neg
    omega⟩ : (0 : Int) ≤ a + 1 ∧ a + 1 ∉ [a - 1] ++ [a])]
  rfl

/-- Running the candidate loop over pages lo..lo+n yields the contiguous
ascending list lo-1..lo+n+1. -/
theorem foldl_addCandidates (lo : Int) (hlo : 1 ≤ lo) :
    ∀ n : Nat, (intRange lo (lo + n + 1)).foldl addCandidates [] =
      intRange (lo - 1) (lo + n + 2) := by
  intro n
  induction n with
  | zero =>
    simp only [Nat.cast_zero, add_zero]
    rw [intRange_single lo]
    simp only [List.foldl_cons, List.foldl_nil]
    rw [addCandidates_start lo hlo]
    have h3 := intRange_three (lo - 1)
    have e1 : lo - 1 + 3 = lo + 2 := by ring
    have e2 : lo - 1 + 1 = lo := by ring
    have e3 : lo - 1 + 2 = lo + 1 := by ring
    rw [e1, e2, e3] at h3
    rw [h3]
  | succ n ih =>
    have hsplit : intRange lo (lo + (n + 1 : Nat) + 1) =
        intRange lo (lo + n + 1) ++ [lo + n + 1] := by
      have h1 : lo + ((n : Nat) + 1 : Nat) + 1 = (lo + n + 1) + 1 := by push_cast; ring
      rw [h1, intRange_snoc lo (lo + n + 1) (by omega)]
    rw [hsplit, List.foldl_append, ih]
    simp only [List.foldl_cons, List.foldl_nil]
    have hmid := addCandidates_mid (lo - 1) (lo + n + 1) (by omega) (by omega)
    have h2 : (lo + (n : Int) + 1) + 1 = lo + n + 2 := by ring
    rw [h2] at hmid
    rw [hmid]
    congr 1
    push_cast
    ring

/-- Closed form of the candidate page list: empty when the loop range is
empty, otherwise the contiguous ascending run from two pages before the
first covering page (clamped) to two pages after the last. -/
theorem candidate_pages_eq (s e : Int) :
    candidate_pages s e =
      (if max 1 ((e - 1).fdiv 25 + 1) + 2 ≤ max 1 (max 1 ((s - 1).fdiv 25 + 1) - 1) then
        ([] : List Int)
       else
        intRange (max 1 (max 1 ((s - 1).fdiv 25 + 1) - 1) - 1)
          (max 1 ((e - 1).fdiv 25 + 1) + 3)) := by
  by_cases h : max 1 ((e - 1).fdiv 25 + 1) + 2 ≤ max 1 (max 1 ((s - 1).fdiv 25 + 1) - 1)
  · rw [if_pos h]
    unfold candidate_pages
    rw [intRange_empty _ _ h]
    rfl
  · rw [if_neg h]
    unfold candidate_pages
    have hlo : 1 ≤ max 1 (max 1 ((s - 1).fdiv 25 + 1) - 1) := le_max_left 1 _
    obtain ⟨n, hn⟩ : ∃ n : Nat, max 1 ((e - 1).fdiv 25 + 1) + 2 =
        max 1 (max 1 ((s - 1).fdiv 25 + 1) - 1) + n + 1 :=
      ⟨(max 1 ((e - 1).fdiv 25 + 1) + 1 - max 1 (max 1 ((s - 1).fdiv 25 + 1) - 1)).toNat,
        by omega⟩
    rw [hn, foldl_addCandidates _ hlo n]
    congr 1
    omega

theorem mergePage_error (fp : Int → Except Unit (List (Int × String))) (s e : Int)
    (m : RankMap) (p : Int) (h : fp p = .error ()) : mergePage fp s e m p = m := by
  unfold mergePage
  rw [h]

theorem mergePage_ok (fp : Int → Except Unit (List (Int × String))) (s e : Int)
    (m : RankMap) (p : Int) (rows : List (Int × String)) (h : fp p = .ok rows) :
    mergePage fp s e m p = rows.foldl (insertIfInWindow s e) m := by
  unfold mergePage
  rw [h]

theorem stopsAt_error (fp : Int → Except Unit (List (Int × String))) (s e : Int)
    (m : RankMap) (p : Int) (h : fp p = .error ()) : stopsAt fp s e m p = false := by
  unfold stopsAt
  rw [h]
  rfl

theorem stopsAt_ok (fp : Int → Except Unit (List (Int × String))) (s e : Int)
    (m : RankMap) (p : Int) (rows : List (Int × String)) (h : fp p = .ok rows) :
    stopsAt fp s e m p = covered s e (rows.foldl (insertIfInWindow s e) m) := by
  unfold stopsAt
  rw [h, mergePage_ok fp s e m p rows h]
  simp

/-- Full characterization of the page-fetching loop: it attempts exactly a
prefix of the candidate list, its map is the merge of the attempted pages,
it stops early exactly at the first successfully fetched page whose merge
covers the window, and no earlier attempted page triggered the stop. -/
theorem fetchLoop_spec (fp : Int → Except Unit (List (Int × String))) (s e : Int)
    (ps : List Int) :
    ∀ m : RankMap, ∃ k, k ≤ ps.length ∧
      (fetchLoop fp s e ps m).2 = ps.take k ∧
      (fetchLoop fp s e ps m).1 = (ps.take k).foldl (mergePage fp s e) m ∧
      (k = ps.length ∨
        (1 ≤ k ∧ stopsAt fp s e ((ps.take (k - 1)).foldl (mergePage fp s e) m)
          (ps.getD (k - 1) 0) = true)) ∧
      (∀ j, j + 1 < k →
        stopsAt fp s e ((ps.take j).foldl (mergePage fp s e) m) (ps.getD j 0) = false) := by
  induction ps with
  | nil =>
    intro m
    exact ⟨0, le_rfl, rfl, rfl, Or.inl rfl, fun j hj => absurd hj (by omega)⟩
  | cons p rest ih =>
    intro m
    cases hf : fp p with
    | error u =>
      cases u
      obtain ⟨k, hk, h2, h1, hstop, hnostop⟩ := ih m
      have hme : mergePage fp s e m p = m := mergePage_error fp s e m p hf
      refine ⟨k + 1, by simpa using Nat.succ_le_succ hk, ?_, ?_, ?_, ?_⟩
      · simp only [fetchLoop, hf, List.take_succ_cons]
        rw [h2]
      · simp only [fetchLoop, hf, List.take_succ_cons, List.foldl_cons]
        rw [hme, h1]
      · rcases hstop with hs | ⟨hk1, hs⟩
        · exact Or.inl (by simp [hs])
        · right
          refine ⟨by omega, ?_⟩
          obtain ⟨k0, rfl⟩ : ∃ k0, k = k0 + 1 := ⟨k - 1, by omega⟩
          simp only [Nat.add_sub_cancel, List.take_succ_cons, List.foldl_cons,
            List.getD_cons_succ]
          rw [hme]
          simpa using hs
      · intro j hj
        cases j with
        | zero =>
          simp only [List.take_zero, List.foldl_nil, List.getD_cons_zero]
          exact stopsAt_error fp s e m p hf
        | succ j0 =>
          simp only [List.take_succ_cons, List.foldl_cons, List.getD_cons_succ]
          rw [hme]
          exact hnostop j0 (by omega)
    | ok rows =>
      have hme : mergePage fp s e m p = rows.foldl (insertIfInWindow s e) m :=
        mergePage_ok fp s e m p rows hf
      cases hc : covered s e (rows.foldl (insertIfInWindow s e) m) with
      | true =>
        refine ⟨1, by simp, ?_, ?_, ?_, ?_⟩
        · simp [fetchLoop, hf, hc]
        · simp only [fetchLoop, hf, hc, if_true, List.take_succ_cons, List.take_zero,
            List.foldl_cons, List.foldl_nil]
          simp only [hme]
        · right
          refine ⟨le_rfl, ?_⟩
          simp only [Nat.sub_self, List.take_zero, List.foldl_nil, List.getD_cons_zero]
          rw [stopsAt_ok fp s e m p rows hf]
          exact hc
        · intro j hj
          exact absurd hj (by omega)
      | false =>
        obtain ⟨k, hk, h2, h1, hstop, hnostop⟩ := ih (rows.foldl (insertIfInWindow s e) m)
        refine ⟨k + 1, by simpa using Nat.succ_le_succ hk, ?_, ?_, ?_, ?_⟩
        · simp only [fetchLoop, hf, hc, List.take_succ_cons]
          simp only [Bool.false_eq_true, if_false, h2]
        · simp only [fetchLoop, hf, hc, List.take_succ_cons, List.foldl_cons]
          simp only [Bool.false_eq_true, if_false, hme, h1]
        · rcases hstop with hs | ⟨hk1, hs⟩
          · exact Or.inl (by simp [hs])
          · right
            refine ⟨by omega, ?_⟩
            obtain ⟨k0, rfl⟩ : ∃ k0, k = k0 + 1 := ⟨k - 1, by omega⟩
            simp only [Nat.add_sub_cancel, List.take_succ_cons, List.foldl_cons,
              List.getD_cons_succ]
            rw [hme]
            simpa using hs
        · intro j hj
          cases j with
          | zero =>
            simp only [List.take_zero, List.foldl_nil, List.getD_cons_zero]
            rw [stopsAt_ok fp s e m p rows hf]
            exact hc
          | succ j0 =>
            simp only [List.take_succ_cons, List.foldl_cons, List.getD_cons_succ]
            rw [hme]
            exact hnostop j0 (by omega)

/-- Modelled from the spec's words for C5: translate the rank interval into
the covering pages at a fixed page size of 25 (page 1 holds ranks 1-25),
then pad the candidate set by exactly one page on each side. -/
def specOnePaddedPages (start_rank end_rank : Int) : List Int :=
  intRange (max 1 ((start_rank - 1).fdiv 25 + 1) - 1)
    (max 1 ((end_rank - 1).fdiv 25 + 1) + 2)

/-- C5 counterexample: for anchor rank 50 with ahead=10, behind=3 the window
is [40, 53], covered by pages 2-3; one-page padding would give [1, 2, 3, 4],
but the code's candidate set is [0, 1, 2, 3, 4, 5] — two pages of padding on
each side. -/
theorem candidate_pages_not_one_padded :
    candidate_pages (max 1 (50 - 10)) (50 + 3) = [0, 1, 2, 3, 4, 5] ∧
    specOnePaddedPages (max 1 (50 - 10)) (50 + 3) = [1, 2, 3, 4] ∧
    candidate_pages (max 1 (50 - 10)) (50 + 3) ≠
      specOnePaddedPages (max 1 (50 - 10)) (50 + 3) := by
  refine ⟨by decide, by decide, by decide⟩

/-- C5 amended: for every anchor rank, ahead and behind, the candidate page
list is the contiguous run of pages covering the rank interval
[max(1, anchor_rank-ahead), anchor_rank+behind] under the fixed page size of
25, padded by exactly two pages on each side (clamped below at page 0, and
empty when the loop range degenerates); the candidates are in strictly
ascending order, and the fetch loop attempts exactly an ascending prefix of
them, terminating early precisely at the first successfully fetched page
after whose merge the accumulated map's key set covers the whole interval. -/
theorem candidate_pages_two_padded_early_stop (anchor_rank ahead behind s e : Int)
    (_hs : s = max 1 (anchor_rank - ahead)) (_he : e = anchor_rank + behind) :
    (candidate_pages s e =
      if max 1 ((e - 1).fdiv 25 + 1) + 2 ≤ max 1 (max 1 ((s - 1).fdiv 25 + 1) - 1) then
        ([] : List Int)
      else
        intRange (max 0 (max 1 ((s - 1).fdiv 25 + 1) - 2))
          (max 1 ((e - 1).fdiv 25 + 1) + 3)) ∧
    (candidate_pages s e).Pairwise (· < ·) ∧
    ∀ fp, ∃ k, k ≤ (candidate_pages s e).length ∧
      (fetchLoop fp s e (candidate_pages s e) []).2 = (candidate_pages s e).take k ∧
      ((fetchLoop fp s e (candidate_pages s e) []).2).Pairwise (· < ·) ∧
      (fetchLoop fp s e (candidate_pages s e) []).1 =
        ((candidate_pages s e).take k).foldl (mergePage fp s e) [] ∧
      (k = (candidate_pages s e).length ∨
        (1 ≤ k ∧
          stopsAt fp s e (((candidate_pages s e).take (k - 1)).foldl (mergePage fp s e) [])
            ((candidate_pages s e).getD (k - 1) 0) = true)) ∧
      (∀ j, j + 1 < k →
        stopsAt fp s e (((candidate_pages s e).take j).foldl (mergePage fp s e) [])
          ((candidate_pages s e).getD j 0) = false) := by
  have hpw : (candidate_pages s e).Pairwise (· < ·) := by
    rw [candidate_pages_eq s e]
    by_cases h : max 1 ((e - 1).fdiv 25 + 1) + 2 ≤ max 1 (max 1 ((s - 1).fdiv 25 + 1) - 1)
    · rw [if_pos h]
      exact List.Pairwise.nil
    · rw [if_neg h]
      exact intRange_pairwise _ _
  refine ⟨?_, hpw, ?_⟩
  · rw [candidate_pages_eq s e]
    have heq : max 1 (max 1 ((s - 1).fdiv 25 + 1) - 1) - 1 =
        max 0 (max 1 ((s - 1).fdiv 25 + 1) - 2) := by omega
    rw [heq]
  · intro fp
    obtain ⟨k, hk, h2, h1, hstop, hnostop⟩ := fetchLoop_spec fp s e (candidate_pages s e) []
    refine ⟨k, hk, h2, ?_, h1, hstop, hnostop⟩
    rw [h2]
    exact List.Pairwise.sublist (List.take_sublist k _) hpw

/-- Witness for C5's amended theorem at anchor rank 50, ahead=10, behind=3:
the candidate set is the two-page-padded run, pages 0 through 5, ascending. -/
theorem candidate_pages_two_padded_early_stop_witness :
    candidate_pages (max 1 (50 - 10)) (50 + 3) =
      intRange (max 0 (max 1 (((max 1 (50 - 10) : Int) - 1).fdiv 25 + 1) - 2))
        (max 1 ((((50 + 3) : Int) - 1).fdiv 25 + 1) + 3) ∧
    (candidate_pages (max 1 (50 - 10)) (50 + 3)).Pairwise (· < ·) := by
  have h := candidate_pages_two_padded_early_stop 50 10 3 (max 1 (50 - 10)) (50 + 3) rfl rfl
  refine ⟨?_, h.2.1⟩
  rw [h.1]
  rw [if_neg (by decide)]

/-- One parser step preserves the relation between emitted pairs and the
completed-row trace. -/
theorem pstep_filterMap (st : PState) (ev : HEvent)
    (h : st.rows = st.trace.filterMap extractRow) :
    (pstep st ev).rows = (pstep st ev).trace.filterMap extractRow := by
  cases ev with
  | startTag t =>
    unfold pstep handleStart
    by_cases h1 : t = "tr"
    · simp [h1, h]
    · by_cases h2 : t = "td" ∧ st.in_tr <;> simp [h1, h2, h]
  | endTag t =>
    unfold pstep handleEnd
    by_cases h1 : t = "td" ∧ st.in_td
    · simp [h1, h]
    · by_cases h2 : t = "tr" ∧ st.in_tr
      · cases hx : extractRow st.current_row with
        | none => simp [if_neg h1, if_pos h2, hx, h]
        | some rn => simp [if_neg h1, if_pos h2, hx, h]
      · simp [if_neg h1, if_neg h2, h]
  | data s =>
    unfold pstep handleData
    by_cases h1 : st.in_td ∧ s ≠ "" <;> simp [h1, h]

/-- The pairs the parser emits are exactly the per-row extraction, row by
completed row. -/
theorem runParser_eq_filterMap (evs : List HEvent) :
    runParser evs = (rowTrace evs).filterMap extractRow := by
  suffices h : ∀ st : PState, st.rows = st.trace.filterMap extractRow →
      (evs.foldl pstep st).rows = (evs.foldl pstep st).trace.filterMap extractRow by
    exact h initPS (by simp [initPS])
  induction evs with
  | nil => intro st h; exact h
  | cons ev rest ih =>
    intro st h
    exact ih (pstep st ev) (pstep_filterMap st ev h)

/-- findRankIdx finds a digit cell, and the first one. -/
theorem findRankIdx_some (row : List String) (i : Nat) (h : findRankIdx row = some i) :
    i < row.length ∧ isDigitsStr (digitText (row.getD i "")) = true ∧
      ∀ j, j < i → isDigitsStr (digitText (row.getD j "")) = false := by
  induction row generalizing i with
  | nil => cases h
  | cons cell rest ih =>
    unfold findRankIdx at h
    by_cases hd : isDigitsStr (digitText cell) = true
    · rw [if_pos hd] at h
      injection h with h
      subst h
      refine ⟨by simp, ?_, fun j hj => absurd hj (by omega)⟩
      simp only [List.getD_cons_zero]
      exact hd
    · rw [if_neg hd] at h
      cases hr : findRankIdx rest with
      | none => rw [hr] at h; cases h
      | some i0 =>
        rw [hr] at h
        simp at h
        subst h
        obtain ⟨h1, h2, h3⟩ := ih i0 hr
        refine ⟨?_, ?_, ?_⟩
        · simp only [List.length_cons]
          omega
        · simp only [List.getD_cons_succ]
          exact h2
        · intro j hj
          cases j with
          | zero =>
            simp only [List.getD_cons_zero]
            cases hb : isDigitsStr (digitText cell)
            · rfl
            · exact absurd hb hd
          | succ j0 =>
            simp only [List.getD_cons_succ]
            exact h3 j0 (by omega)

theorem extractRow_of_short (row : List String) (h : ¬ 3 ≤ row.length) :
    extractRow row = none := by
  unfold extractRow
  rw [if_neg h]

theorem extractRow_of_none (row : List String) (h3 : 3 ≤ row.length)
    (hf : findRankIdx row = none) : extractRow row = none := by
  unfold extractRow
  rw [if_pos h3, hf]

theorem extractRow_of_some (row : List String) (i : Nat) (h3 : 3 ≤ row.length)
    (hf : findRankIdx row = some i) :
    extractRow row =
      (if i + 1 < row.length then
        if isDigitsStr (digitText (row.getD i "")) ∧
            (trimChars (row.getD (i + 1) "").toList).asString ≠ "" then
          some ((digitsVal (digitText (row.getD i "")).toList : Int),
            (trimChars (row.getD (i + 1) "").toList).asString)
        else none
      else none) := by
  unfold extractRow
  rw [if_pos h3, hf]

/-- Full characterization of the per-row extraction: a pair is emitted
exactly when the row has at least 3 cells, its first digit cell exists and
is followed by another cell, and the following cell is non-empty after
strip; the pair is then (int of the digit text, stripped following cell). -/
theorem extractRow_eq_some_iff (row : List String) (r : Int) (n : String) :
    extractRow row = some (r, n) ↔
      3 ≤ row.length ∧ ∃ i, findRankIdx row = some i ∧ i + 1 < row.length ∧
        n = (trimChars (row.getD (i + 1) "").toList).asString ∧ n ≠ "" ∧
        r = (digitsVal (digitText (row.getD i "")).toList : Int) := by
  by_cases h3 : 3 ≤ row.length
  · cases hf : findRankIdx row with
    | none =>
      rw [extractRow_of_none row h3 hf]
      constructor
      · intro h; cases h
      · rintro ⟨_, i, hi, _⟩
        cases hi
    | some i =>
      rw [extractRow_of_some row i h3 hf]
      by_cases hlt : i + 1 < row.length
      · rw [if_pos hlt]
        by_cases hcond : isDigitsStr (digitText (row.getD i "")) ∧
            (trimChars (row.getD (i + 1) "").toList).asString ≠ ""
        · rw [if_pos hcond]
          constructor
          · intro h
            injection h with h
            injection h with hr hn
            exact ⟨h3, i, rfl, hlt, hn.symm, hn ▸ hcond.2, hr.symm⟩
          · rintro ⟨_, i2, hi2, _, hn, _, hr⟩
            injection hi2 with hi2
            subst hi2
            rw [hn, hr]
        · rw [if_neg hcond]
          constructor
          · intro h; cases h
          · rintro ⟨_, i2, hi2, _, hn, hne, _⟩
            injection hi2 with hi2
            subst hi2
            exact absurd ⟨(findRankIdx_some row i hf).2.1, hn ▸ hne⟩ hcond
      · rw [if_neg hlt]
        constructor
        · intro h; cases h
        · rintro ⟨_, i2, hi2, hlt2, _⟩
          injection hi2 with hi2
          subst hi2
          exact absurd hlt2 hlt
  · rw [extractRow_of_short row h3]
    constructor
    · intro h; cases h
    · rintro ⟨h, _⟩
      exact absurd h h3

/-- One parser step preserves "every completed or in-progress cell is the
whitespace-collapse of some raw text". -/
theorem pstep_collapsed (st : PState) (ev : HEvent)
    (hc : ∀ c ∈ st.current_row, ∃ raw, c = collapse raw)
    (ht : ∀ row ∈ st.trace, ∀ c ∈ row, ∃ raw, c = collapse raw) :
    (∀ c ∈ (pstep st ev).current_row, ∃ raw, c = collapse raw) ∧
    (∀ row ∈ (pstep st ev).trace, ∀ c ∈ row, ∃ raw, c = collapse raw) := by
  cases ev with
  | startTag t =>
    simp only [pstep]
    unfold handleStart
    by_cases h1 : t = "tr"
    · rw [if_pos h1]
      exact ⟨fun c hc2 => absurd hc2 (List.not_mem_nil c), ht⟩
    · rw [if_neg h1]
      by_cases h2 : t = "td" ∧ st.in_tr
      · rw [if_pos h2]
        exact ⟨hc, ht⟩
      · rw [if_neg h2]
        exact ⟨hc, ht⟩
  | endTag t =>
    simp only [pstep]
    unfold handleEnd
    by_cases h1 : t = "td" ∧ st.in_td
    · rw [if_pos h1]
      refine ⟨?_, ht⟩
      intro c hcm
      rcases List.mem_append.mp hcm with hcm | hcm
      · exact hc c hcm
      · rw [List.mem_singleton] at hcm
        exact ⟨st.current_td, hcm⟩
    · rw [if_neg h1]
      by_cases h2 : t = "tr" ∧ st.in_tr
      · rw [if_pos h2]
        refine ⟨hc, ?_⟩
        intro row hrow
        rcases List.mem_append.mp hrow with hrow | hrow
        · exact ht row hrow
        · rw [List.mem_singleton] at hrow
          subst hrow
          exact hc
      · rw [if_neg h2]
        exact ⟨hc, ht⟩
  | data s =>
    simp only [pstep]
    unfold handleData
    by_cases h1 : st.in_td ∧ s ≠ ""
    · rw [if_pos h1]
      exact ⟨hc, ht⟩
    · rw [if_neg h1]
      exact ⟨hc, ht⟩

/-- Every cell of every completed row is the whitespace-collapse of the raw
text accumulated for it. -/
theorem rowTrace_cells_collapsed (evs : List HEvent) :
    ∀ row ∈ rowTrace evs, ∀ c ∈ row, ∃ raw, c = collapse raw := by
  suffices h : ∀ st : PState,
      (∀ c ∈ st.current_row, ∃ raw, c = collapse raw) →
      (∀ row ∈ st.trace, ∀ c ∈ row, ∃ raw, c = collapse raw) →
      ∀ row ∈ (evs.foldl pstep st).trace, ∀ c ∈ row, ∃ raw, c = collapse raw by
    exact h initPS (by simp [initPS]) (by simp [initPS])
  induction evs with
  | nil => intro st _ ht; exact ht
  | cons ev rest ih =>
    intro st hc ht
    obtain ⟨hc2, ht2⟩ := pstep_collapsed st ev hc ht
    exact ih (pstep st ev) hc2 ht2

theorem handleStart_keeps (st : PState) (t : String) :
    (handleStart st t).rows = st.rows ∧ (handleStart st t).trace = st.trace := by
  unfold handleStart
  by_cases h1 : t = "tr"
  · rw [if_pos h1]
    exact ⟨rfl, rfl⟩
  · rw [if_neg h1]
    by_cases h2 : t = "td" ∧ st.in_tr
    · rw [if_pos h2]
      exact ⟨rfl, rfl⟩
    · rw [if_neg h2]
      exact ⟨rfl, rfl⟩

theorem handleData_keeps (st : PState) (s : String) :
    (handleData st s).rows = st.rows ∧ (handleData st s).trace = st.trace := by
  unfold handleData
  by_cases h1 : st.in_td ∧ s ≠ ""
  · rw [if_pos h1]
    exact ⟨rfl, rfl⟩
  · rw [if_neg h1]
    exact ⟨rfl, rfl⟩

/-- findRankIdxPy finds a Python-digit cell, and the first one. -/
theorem findRankIdxPy_some (row : List String) (i : Nat) (h : findRankIdxPy row = some i) :
    i < row.length ∧ pyIsDigitStr (digitText (row.getD i "")) = true ∧
      ∀ j, j < i → pyIsDigitStr (digitText (row.getD j "")) = false := by
  induction row generalizing i with
  | nil => cases h
  | cons cell rest ih =>
    unfold findRankIdxPy at h
    by_cases hd : pyIsDigitStr (digitText cell) = true
    · rw [if_pos hd] at h
      injection h with h
      subst h
      refine ⟨by simp, ?_, fun j hj => absurd hj (by omega)⟩
      simp only [List.getD_cons_zero]
      exact hd
    · rw [if_neg hd] at h
      cases hr : findRankIdxPy rest with
      | none => rw [hr] at h; cases h
      | some i0 =>
        rw [hr] at h
        simp at h
        subst h
        obtain ⟨h1, h2, h3⟩ := ih i0 hr
        refine ⟨?_, ?_, ?_⟩
        · simp only [List.length_cons]
          omega
        · simp only [List.getD_cons_succ]
          exact h2
        · intro j hj
          cases j with
          | zero =>
            simp only [List.getD_cons_zero]
            cases hb : pyIsDigitStr (digitText cell)
            · rfl
            · exact absurd hb hd
          | succ j0 =>
            simp only [List.getD_cons_succ]
            exact h3 j0 (by omega)

theorem extractRowPy_of_short (row : List String) (h : ¬ 3 ≤ row.length) :
    extractRowPy row = .ok none := by
  unfold extractRowPy
  rw [if_neg h]

theorem extractRowPy_of_none (row : List String) (h3 : 3 ≤ row.length)
    (hf : findRankIdxPy row = none) : extractRowPy row = .ok none := by
  unfold extractRowPy
  rw [if_pos h3, hf]

theorem extractRowPy_of_some (row : List String) (i : Nat) (h3 : 3 ≤ row.length)
    (hf : findRankIdxPy row = some i) :
    extractRowPy row =
      (if i + 1 < row.length then
        if pyIsDigitStr (digitText (row.getD i "")) ∧
            (trimChars (row.getD (i + 1) "").toList).asString ≠ "" then
          match pyIntDigits (digitText (row.getD i "")) with
          | .error e => .error e
          | .ok v => .ok (some ((v : Int), (trimChars (row.getD (i + 1) "").toList).asString))
        else .ok none
      else .ok none) := by
  unfold extractRowPy
  rw [if_pos h3, hf]

/-- A pair is returned exactly when the row has at least 3 cells, its first
Python-digit cell is followed by another cell that is non-empty after strip,
and int() accepts the digit text. -/
theorem extractRowPy_ok_some_iff (row : List String) (r : Int) (n : String) :
    extractRowPy row = .ok (some (r, n)) ↔
      3 ≤ row.length ∧ ∃ i, findRankIdxPy row = some i ∧ i + 1 < row.length ∧
        n = (trimChars (row.getD (i + 1) "").toList).asString ∧ n ≠ "" ∧
        ∃ v, pyIntDigits (digitText (row.getD i "")) = .ok v ∧ r = (v : Int) := by
  by_cases h3 : 3 ≤ row.length
  · cases hf : findRankIdxPy row with
    | none =>
      rw [extractRowPy_of_none row h3 hf]
      constructor
      · intro h
        injection h with h
        cases h
      · rintro ⟨_, i, hi, _⟩
        cases hi
    | some i =>
      rw [extractRowPy_of_some row i h3 hf]
      by_cases hlt : i + 1 < row.length
      · rw [if_pos hlt]
        by_cases hcond : pyIsDigitStr (digitText (row.getD i "")) ∧
            (trimChars (row.getD (i + 1) "").toList).asString ≠ ""
        · rw [if_pos hcond]
          cases hpi : pyIntDigits (digitText (row.getD i "")) with
          | error e =>
            constructor
            · intro h
              injection h
            · rintro ⟨_, i2, hi2, _, _, _, v, hv, _⟩
              injection hi2 with hi2
              subst hi2
              rw [hpi] at hv
              cases hv
          | ok v =>
            constructor
            · intro h
              injection h with h
              injection h with h
              injection h with hr hn
              exact ⟨h3, i, rfl, hlt, hn.symm, hn ▸ hcond.2, v, hpi, hr.symm⟩
            · rintro ⟨_, i2, hi2, _, hn, _, v2, hv2, hr⟩
              injection hi2 with hi2
              subst hi2
              rw [hpi] at hv2
              injection hv2 with hv2
              subst hv2
              rw [hn, hr]
        · rw [if_neg hcond]
          constructor
          · intro h
            injection h with h
            cases h
          · rintro ⟨_, i2, hi2, _, hn, hne, _⟩
            injection hi2 with hi2
            subst hi2
            exact absurd ⟨(findRankIdxPy_some row i hf).2.1, hn ▸ hne⟩ hcond
      · rw [if_neg hlt]
        constructor
        · intro h
          injection h with h
          cases h
        · rintro ⟨_, i2, hi2, hlt2, _⟩
          injection hi2 with hi2
          subst hi2
          exact absurd hlt2 hlt
  · rw [extractRowPy_of_short row h3]
    constructor
    · intro h
      injection h with h
      cases h
    · rintro ⟨h, _⟩
      exact absurd h h3

/-- The ValueError case: row completion raises exactly when the first
Python-digit cell is followed by a non-empty cell but int() rejects the
digit text (a digit-property, non-decimal character such as a superscript). -/
theorem extractRowPy_error_iff (row : List String) :
    extractRowPy row = .error () ↔
      3 ≤ row.length ∧ ∃ i, findRankIdxPy row = some i ∧ i + 1 < row.length ∧
        (trimChars (row.getD (i + 1) "").toList).asString ≠ "" ∧
        pyIntDigits (digitText (row.getD i "")) = .error () := by
  by_cases h3 : 3 ≤ row.length
  · cases hf : findRankIdxPy row with
    | none =>
      rw [extractRowPy_of_none row h3 hf]
      constructor
      · intro h
        exact Except.noConfusion h
      · rintro ⟨_, i, hi, _⟩
        cases hi
    | some i =>
      rw [extractRowPy_of_some row i h3 hf]
      by_cases hlt : i + 1 < row.length
      · rw [if_pos hlt]
        by_cases hcond : pyIsDigitStr (digitText (row.getD i "")) ∧
            (trimChars (row.getD (i + 1) "").toList).asString ≠ ""
        · rw [if_pos hcond]
          cases hpi : pyIntDigits (digitText (row.getD i "")) with
          | error e =>
            cases e
            constructor
            · intro _
              exact ⟨h3, i, rfl, hlt, hcond.2, hpi⟩
            · intro _
              rfl
          | ok v =>
            constructor
            · intro h
              injection h
            · rintro ⟨_, i2, hi2, _, _, hpe⟩
              injection hi2 with hi2
              subst hi2
              rw [hpi] at hpe
              cases hpe
        · rw [if_neg hcond]
          constructor
          · intro h
            exact Except.noConfusion h
          · rintro ⟨_, i2, hi2, _, hne, _⟩
            injection hi2 with hi2
            subst hi2
            exact absurd ⟨(findRankIdxPy_some row i hf).2.1, hne⟩ hcond
      · rw [if_neg hlt]
        constructor
        · intro h
          exact Except.noConfusion h
        · rintro ⟨_, i2, hi2, hlt2, _⟩
          injection hi2 with hi2
          subst hi2
          exact absurd hlt2 hlt
  · rw [extractRowPy_of_short row h3]
    constructor
    · intro h
      exact Except.noConfusion h
    · rintro ⟨h, _⟩
      exact absurd h h3

/-- A raising row completion propagates: closing a tr whose row raises makes
the whole step fail. -/
theorem pstepPy_raises (st : PState) (hin : st.in_tr = true)
    (hx : extractRowPy st.current_row = .error ()) :
    pstepPy st (.endTag "tr") = .error () := by
  have h1 : ¬(("tr" : String) = "td" ∧ st.in_td = true) :=
    fun hcon => absurd hcon.1 (by decide)
  have h2 : ("tr" : String) = "tr" ∧ st.in_tr = true := ⟨rfl, hin⟩
  simp only [pstepPy, if_neg h1, if_pos h2, hx]
  simp [hin]

/-- One successful faithful step preserves: emitted pairs are the per-row
extraction over completed rows, and no completed row raises. -/
theorem pstepPy_inv (st st2 : PState) (ev : HEvent) (h : pstepPy st ev = .ok st2)
    (hrows : st.rows = st.trace.filterMap rowPairPy)
    (herr : ∀ row ∈ st.trace, extractRowPy row ≠ .error ()) :
    st2.rows = st2.trace.filterMap rowPairPy ∧
    ∀ row ∈ st2.trace, extractRowPy row ≠ .error () := by
  cases ev with
  | startTag t =>
    have h2 : st2 = handleStart st t := by
      simp only [pstepPy] at h
      injection h with h
      exact h.symm
    subst h2
    obtain ⟨hr, htr⟩ := handleStart_keeps st t
    rw [hr, htr]
    exact ⟨hrows, herr⟩
  | data s =>
    have h2 : st2 = handleData st s := by
      simp only [pstepPy] at h
      injection h with h
      exact h.symm
    subst h2
    obtain ⟨hr, htr⟩ := handleData_keeps st s
    rw [hr, htr]
    exact ⟨hrows, herr⟩
  | endTag t =>
    simp only [pstepPy] at h
    by_cases h1 : t = "td" ∧ st.in_td
    · rw [if_pos h1] at h
      injection h with h
      subst h
      exact ⟨hrows, herr⟩
    · rw [if_neg h1] at h
      by_cases h2 : t = "tr" ∧ st.in_tr
      · rw [if_pos h2] at h
        cases hx : extractRowPy st.current_row with
        | error e =>
          rw [hx] at h
          exact Except.noConfusion h
        | ok o =>
          rw [hx] at h
          have hp : rowPairPy st.current_row = o := by
            unfold rowPairPy
            rw [hx]
          cases o with
          | none =>
            injection h with h
            subst h
            constructor
            · rw [List.filterMap_append]
              simp [hp, hrows]
            · intro row hrow
              rcases List.mem_append.mp hrow with hrow | hrow
              · exact herr row hrow
              · rw [List.mem_singleton] at hrow
                subst hrow
                rw [hx]
                exact fun hcon => Except.noConfusion hcon
          | some rn =>
            injection h with h
            subst h
            constructor
            · rw [List.filterMap_append]
              simp [hp, hrows]
            · intro row hrow
              rcases List.mem_append.mp hrow with hrow | hrow
              · exact herr row hrow
              · rw [List.mem_singleton] at hrow
                subst hrow
                rw [hx]
                exact fun hcon => Except.noConfusion hcon
      · rw [if_neg h2] at h
        injection h with h
        subst h
        exact ⟨hrows, herr⟩

/-- One successful faithful step preserves the collapse-image property of
cells. -/
theorem pstepPy_collapsed (st st2 : PState) (ev : HEvent) (h : pstepPy st ev = .ok st2)
    (hc : ∀ c ∈ st.current_row, ∃ raw, c = collapse raw)
    (ht : ∀ row ∈ st.trace, ∀ c ∈ row, ∃ raw, c = collapse raw) :
    (∀ c ∈ st2.current_row, ∃ raw, c = collapse raw) ∧
    (∀ row ∈ st2.trace, ∀ c ∈ row, ∃ raw, c = collapse raw) := by
  cases ev with
  | startTag t =>
    have h2 : st2 = handleStart st t := by
      simp only [pstepPy] at h
      injection h with h
      exact h.symm
    rw [h2]
    exact pstep_collapsed st (.startTag t) hc ht
  | data s =>
    have h2 : st2 = handleData st s := by
      simp only [pstepPy] at h
      injection h with h
      exact h.symm
    rw [h2]
    exact pstep_collapsed st (.data s) hc ht
  | endTag t =>
    simp only [pstepPy] at h
    by_cases h1 : t = "td" ∧ st.in_td
    · rw [if_pos h1] at h
      injection h with h
      subst h
      refine ⟨?_, ht⟩
      intro c hcm
      rcases List.mem_append.mp hcm with hcm | hcm
      · exact hc c hcm
      · rw [List.mem_singleton] at hcm
        exact ⟨st.current_td, hcm⟩
    · rw [if_neg h1] at h
      by_cases h2 : t = "tr" ∧ st.in_tr
      · rw [if_pos h2] at h
        cases hx : extractRowPy st.current_row with
        | error e =>
          rw [hx] at h
          exact Except.noConfusion h
        | ok o =>
          rw [hx] at h
          have htr : ∀ row ∈ st.trace ++ [st.current_row], ∀ c ∈ row,
              ∃ raw, c = collapse raw := by
            intro row hrow
            rcases List.mem_append.mp hrow with hrow | hrow
            · exact ht row hrow
            · rw [List.mem_singleton] at hrow
              subst hrow
              exact hc
          cases o with
          | none =>
            injection h with h
            subst h
            exact ⟨hc, htr⟩
          | some rn =>
            injection h with h
            subst h
            exact ⟨hc, htr⟩
      · rw [if_neg h2] at h
        injection h with h
        subst h
        exact ⟨hc, ht⟩

/-- The feed invariant: starting from a state satisfying the three
properties, a successful faithful feed ends in a state satisfying them. -/
theorem feedPy_inv (evs : List HEvent) :
    ∀ st st2, feedPy st evs = .ok st2 →
      st.rows = st.trace.filterMap rowPairPy →
      (∀ row ∈ st.trace, extractRowPy row ≠ .error ()) →
      (∀ c ∈ st.current_row, ∃ raw, c = collapse raw) →
      (∀ row ∈ st.trace, ∀ c ∈ row, ∃ raw, c = collapse raw) →
      st2.rows = st2.trace.filterMap rowPairPy ∧
      (∀ row ∈ st2.trace, extractRowPy row ≠ .error ()) ∧
      (∀ row ∈ st2.trace, ∀ c ∈ row, ∃ raw, c = collapse raw) := by
  induction evs with
  | nil =>
    intro st st2 h h1 h2 _ h4
    injection h with h
    subst h
    exact ⟨h1, h2, h4⟩
  | cons ev rest ih =>
    intro st st2 h h1 h2 h3 h4
    unfold feedPy at h
    cases hp : pstepPy st ev with
    | error e =>
      rw [hp] at h
      exact Except.noConfusion h
    | ok stm =>
      rw [hp] at h
      obtain ⟨i1, i2⟩ := pstepPy_inv st stm ev hp h1 h2
      obtain ⟨c1, c2⟩ := pstepPy_collapsed st stm ev hp h3 h4
      exact ih stm st2 h i1 i2 c1 c2

/-- When the faithful parse completes without raising, the emitted pairs are
exactly the per-row extraction over the completed rows, no completed row
raises, and every cell is a whitespace-collapse image. -/
theorem runParserPy_ok (evs : List HEvent) (rows : List (Int × String))
    (h : runParserPy evs = .ok rows) :
    ∃ st, feedPy initPS evs = .ok st ∧ st.rows = rows ∧
      rows = st.trace.filterMap rowPairPy ∧
      (∀ row ∈ st.trace, extractRowPy row ≠ .error ()) ∧
      (∀ row ∈ st.trace, ∀ c ∈ row, ∃ raw, c = collapse raw) := by
  unfold runParserPy at h
  cases hf : feedPy initPS evs with
  | error e =>
    rw [hf] at h
    exact Except.noConfusion h
  | ok st =>
    rw [hf] at h
    injection h with h
    obtain ⟨i1, i2, i3⟩ := feedPy_inv evs initPS st hf (by simp [initPS]) (by simp [initPS])
      (by simp [initPS]) (by simp [initPS])
    exact ⟨st, rfl, h, by rw [← h]; exact i1, i2, i3⟩

/-- Modelled from the spec's words for C7: a row qualifies for emission when
it has at least 3 cells and contains a cell whose trimmed, comma-stripped
text is a non-negative integer followed by another cell (the first such cell
being the rank). -/
def specRowQualifiesPy (row : List String) : Prop :=
  3 ≤ row.length ∧ ((findRankIdxPy row).any fun i => decide (i + 1 < row.length)) = true

instance (row : List String) : Decidable (specRowQualifiesPy row) :=
  inferInstanceAs (Decidable (_ ∧ _))

/-- A row whose rank cell is followed by an empty name cell. -/
def emptyNameEvents : List HEvent :=
  [.startTag "tr", .startTag "td", .data "1", .endTag "td",
   .startTag "td", .endTag "td",
   .startTag "td", .data "x", .endTag "td", .endTag "tr"]

/-- A row whose rank cell is the superscript '²': it passes str.isdigit()
but int() raises ValueError on it. -/
def supDigitEvents : List HEvent :=
  [.startTag "tr", .startTag "td", .data "²", .endTag "td",
   .startTag "td", .data "x", .endTag "td",
   .startTag "td", .data "y", .endTag "td", .endTag "tr"]

/-- C7 counterexample, two rows. The row with cells ["1", "", "x"] has 3
cells and its first digit cell is followed by another cell, so the claim
demands an emitted pair; none is emitted (the following cell strips to
empty, failing Python's truthiness check). And the row ["²", "x", "y"] is
neither emitted for nor silently skipped: '²' passes str.isdigit(), so
int('²') runs and raises ValueError out of feed — contradicting "all other
rows are silently skipped with no error". -/
theorem parser_not_exactly_and_can_raise :
    pyTrace emptyNameEvents = [["1", "", "x"]] ∧
    specRowQualifiesPy ["1", "", "x"] ∧
    runParserPy emptyNameEvents = .ok [] ∧
    runParserPy supDigitEvents = .error () := by
  refine ⟨by decide, by decide, by decide, by decide⟩

/-- C7 amended: when the feed completes without raising, the parser emits
one (rank, name) pair for exactly those completed table rows that have at
least 3 cells and whose first cell with trimmed, comma-stripped digit text
(Python str.isdigit) is followed by another cell that is non-empty after
trimming and whose digit text int() accepts — rank is that integer value,
name the trimmed following cell — and all other completed rows contribute
nothing; completing a row whose first digit cell is followed by a non-empty
cell but whose digit text is not decimally convertible (isdigit-true,
non-decimal characters such as '²') instead raises ValueError, aborting the
feed; whitespace inside every cell is collapsed to single spaces. -/
theorem parser_row_extraction_py (evs : List HEvent) :
    (∀ rows, runParserPy evs = .ok rows →
      ∃ st, feedPy initPS evs = .ok st ∧ st.rows = rows ∧
        rows = st.trace.filterMap rowPairPy ∧
        (∀ row ∈ st.trace, extractRowPy row ≠ .error ()) ∧
        (∀ row ∈ st.trace, ∀ c ∈ row, ∃ raw, c = collapse raw)) ∧
    (∀ row r n, extractRowPy row = .ok (some (r, n)) ↔
      3 ≤ row.length ∧ ∃ i, findRankIdxPy row = some i ∧ i + 1 < row.length ∧
        n = (trimChars (row.getD (i + 1) "").toList).asString ∧ n ≠ "" ∧
        ∃ v, pyIntDigits (digitText (row.getD i "")) = .ok v ∧ r = (v : Int)) ∧
    (∀ row, extractRowPy row = .error () ↔
      3 ≤ row.length ∧ ∃ i, findRankIdxPy row = some i ∧ i + 1 < row.length ∧
        (trimChars (row.getD (i + 1) "").toList).asString ≠ "" ∧
        pyIntDigits (digitText (row.getD i "")) = .error ()) ∧
    (∀ row i, findRankIdxPy row = some i →
      i < row.length ∧ pyIsDigitStr (digitText (row.getD i "")) = true ∧
        ∀ j, j < i → pyIsDigitStr (digitText (row.getD j "")) = false) ∧
    (∀ st : PState, st.in_tr = true → extractRowPy st.current_row = .error () →
      pstepPy st (.endTag "tr") = .error ()) :=
  ⟨fun rows h => runParserPy_ok evs rows h, extractRowPy_ok_some_iff,
    extractRowPy_error_iff, findRankIdxPy_some, pstepPy_raises⟩

/-- Witness for C7's amended theorem on a concrete page: the successful feed
emits exactly the per-row extraction of the completed rows, no completed row
raises, and a traced cell really is a whitespace-collapse image. -/
theorem parser_row_extraction_py_witness :
    runParserPy sampleEvents = .ok [(1234, "Zezima the Great"), (77, "Woox")] ∧
    (∃ st, feedPy initPS sampleEvents = .ok st ∧
      st.rows = [(1234, "Zezima the Great"), (77, "Woox")] ∧
      [(1234, "Zezima the Great"), (77, "Woox")] = st.trace.filterMap rowPairPy ∧
      (∀ row ∈ st.trace, extractRowPy row ≠ .error ()) ∧
      (∀ row ∈ st.trace, ∀ c ∈ row, ∃ raw, c = collapse raw)) := by
  refine ⟨by decide, ?_⟩
  exact (parser_row_extraction_py sampleEvents).1
    [(1234, "Zezima the Great"), (77, "Woox")] (by decide)

/-- C10: every pair the parser outputs has a rank parsed from a digits-only
string — hence non-negative — and a name that is non-empty after trimming;
a row whose located rank cell is last, or whose following cell trims to the
empty string, contributes no pair and raises no error. -/
theorem parser_output_invariants (evs : List HEvent) :
    (∀ r n, (r, n) ∈ runParser evs → 0 ≤ r ∧ n ≠ "") ∧
    (∀ row i, findRankIdx row = some i → i + 1 = row.length → extractRow row = none) ∧
    (∀ row i, findRankIdx row = some i →
      (trimChars (row.getD (i + 1) "").toList).asString = "" → extractRow row = none) := by
  refine ⟨?_, ?_, ?_⟩
  · intro r n hmem
    rw [runParser_eq_filterMap evs] at hmem
    obtain ⟨row, _, hrow⟩ := List.mem_filterMap.mp hmem
    obtain ⟨_, i, _, _, _, hne, hr⟩ := (extractRow_eq_some_iff row r n).mp hrow
    exact ⟨by rw [hr]; exact Int.ofNat_nonneg _, hne⟩
  · intro row i hf hlast
    by_cases h3 : 3 ≤ row.length
    · rw [extractRow_of_some row i h3 hf, if_neg (by omega)]
    · exact extractRow_of_short row h3
  · intro row i hf hempty
    by_cases h3 : 3 ≤ row.length
    · rw [extractRow_of_some row i h3 hf]
      by_cases hlt : i + 1 < row.length
      · rw [if_pos hlt, if_neg (fun hcond => hcond.2 hempty)]
      · rw [if_neg hlt]
    · exact extractRow_of_short row h3

/-- Witness for C10: the sample page's first pair is non-negative with a
non-empty name, and the row ["a", "b", "7"], whose only digit cell is last,
is skipped. -/
theorem parser_output_invariants_witness :
    ((0 : Int) ≤ 1234 ∧ "Zezima the Great" ≠ "") ∧
    extractRow ["a", "b", "7"] = none := by
  constructor
  · exact (parser_output_invariants sampleEvents).1 1234 "Zezima the Great" (by decide)
  · exact (parser_output_invariants sampleEvents).2.1 ["a", "b", "7"] 2 (by decide) (by decide)

end Runescrape
